import Mathlib

/-!
# Helio Workstation: the clip container (`Pattern`) and the annotation undo actions

A shallow embedding of `Source/Core/Midi/Patterns/Pattern.cpp` and of
`Source/Core/Undo/Actions/AnnotationEventActions.cpp`.

* A `juce::Array<Clip>` is a `List Clip`; the JUCE members that `Pattern.cpp` calls
  (`contains`, `add`, `addSorted`, `indexOfSorted`, `remove`, `clearQuick`) are written out
  after the JUCE templates, the two binary searches loop for loop.
* `Clip.h`, `SerializationKeys.h`, `PatternActions.h` and `UndoStack.h` are not among the
  sources.  What `Pattern.cpp` uses of `Clip` and of the serialization keys is gathered in
  the record `Env`; the undo stack is a log of the calls it receives, its answers and replays
  being the record `UndoStack`.
* `AnnotationEvent.h`, `AnnotationsSequence.h` and `ProjectTreeItem.h` are not among the
  sources either: the annotation actions take the project as `Annotations.ProjectOps` and the
  event as `Annotations.EventEnv`.
* Every mutator returns the new state next to its C++ return value.
-/

namespace Helio

/-! ## juce::XmlElement -/

/-- An XML element: its tag name, its attributes and its child elements in document order. -/
inductive XmlElement where
  | node (tagName : String) (attributes : List (String × String))
      (children : List XmlElement) : XmlElement

namespace XmlElement

/-- The member `XmlElement::getTagName`. -/
def getTagName : XmlElement → String
  | node t _ _ => t

/-- The child elements, first child first. -/
def children : XmlElement → List XmlElement
  | node _ _ cs => cs

/-- The member `XmlElement::getChildByName`: the first child with that tag, if any. -/
def getChildByName (xml : XmlElement) (name : String) : Option XmlElement :=
  xml.children.find? (fun c => c.getTagName == name)

/-- The children visited by `forEachXmlChildElementWithTagName`, in visiting order. -/
def childrenWithTagName (xml : XmlElement) (name : String) : List XmlElement :=
  xml.children.filter (fun c => c.getTagName == name)

/-- The member `XmlElement::prependChildElement`: the new child becomes the first one. -/
def prependChildElement : XmlElement → XmlElement → XmlElement
  | node t a cs, c => node t a (c :: cs)

end XmlElement

/-! ## What `Pattern.cpp` uses of declarations that are not among the sources -/

/-- The members of `Clip` (Clip.h), the serialization keys (SerializationKeys.h) and the
sorting routine behind `juce::Array::sort` (`std::sort`) that `Pattern.cpp` relies on. -/
structure Env (Clip : Type) where
  /-- The static comparator `Clip::compareElements`: negative, zero or positive. -/
  compareElements : Clip → Clip → Int
  /-- The `operator==` of `Clip`, used by `Array::contains`. -/
  equals : Clip → Clip → Bool
  /-- The value built by `Clip(this)`. -/
  create : Clip
  /-- The clip obtained by `Clip c(this); c.deserialize(e)`. -/
  deserialize : XmlElement → Clip
  /-- The member `Clip::serialize`. -/
  serialize : Clip → XmlElement
  /-- The rearrangement `std::sort` makes of an array under `compareElements(a, b) < 0`. -/
  stdSort : List Clip → List Clip
  /-- The key `Serialization::Core::pattern`. -/
  patternKey : String
  /-- The key `Serialization::Core::clip`. -/
  clipKey : String

/-! ## juce::Array -/

namespace JuceArray

variable {Clip : Type}

/-- The member `Array::contains`: a linear scan with `operator==`. -/
def contains (env : Env Clip) (arr : List Clip) (x : Clip) : Bool :=
  arr.any (fun e => env.equals x e)

/-- The member `Array::add`: append at the end. -/
def add (arr : List Clip) (x : Clip) : List Clip :=
  arr ++ [x]

/-- The loop of `findInsertIndexInSortedArray`.  `fuel` bounds the number of iterations; every
iteration that continues moves `firstElement` or `lastElement` to `halfway`, strictly between
them.  A read outside the array does not occur while `lastElement ≤ size`. -/
def findInsertIndexLoop (env : Env Clip) (arr : List Clip) (newElement : Clip) :
    Nat → Nat → Nat → Nat
  | 0, firstElement, _ => firstElement
  | fuel + 1, firstElement, lastElement =>
    if firstElement < lastElement then
      match arr[firstElement]? with
      | none => firstElement
      | some atFirst =>
        if env.compareElements newElement atFirst = 0 then
          firstElement + 1
        else
          let halfway := (firstElement + lastElement) / 2
          match arr[halfway]? with
          | none => firstElement
          | some atHalf =>
            if halfway = firstElement then
              if env.compareElements newElement atHalf ≥ 0 then firstElement + 1
              else firstElement
            else if env.compareElements newElement atHalf ≥ 0 then
              findInsertIndexLoop env arr newElement fuel halfway lastElement
            else
              findInsertIndexLoop env arr newElement fuel firstElement halfway
    else firstElement

/-- The function `findInsertIndexInSortedArray (comparator, array, newElement, 0, numUsed)`. -/
def findInsertIndexInSortedArray (env : Env Clip) (arr : List Clip) (newElement : Clip) : Nat :=
  findInsertIndexLoop env arr newElement (arr.length + 1) 0 arr.length

/-- The member `Array::addSorted`: insert at the index the binary search returns. -/
def addSorted (env : Env Clip) (arr : List Clip) (newElement : Clip) : List Clip :=
  arr.insertIdx (findInsertIndexInSortedArray env arr newElement) newElement

/-- The loop of `Array::indexOfSorted`, `-1` when it gives up.  `fuel` as above. -/
def indexOfSortedLoop (env : Env Clip) (arr : List Clip) (elementToLookFor : Clip) :
    Nat → Nat → Nat → Int
  | 0, _, _ => -1
  | fuel + 1, s, e =>
    if s ≥ e then -1
    else
      match arr[s]? with
      | none => -1
      | some atS =>
        if env.compareElements elementToLookFor atS = 0 then (s : Int)
        else
          let halfway := (s + e) / 2
          if halfway = s then -1
          else
            match arr[halfway]? with
            | none => -1
            | some atHalf =>
              if env.compareElements elementToLookFor atHalf ≥ 0 then
                indexOfSortedLoop env arr elementToLookFor fuel halfway e
              else
                indexOfSortedLoop env arr elementToLookFor fuel s halfway

/-- The member `Array::indexOfSorted`. -/
def indexOfSorted (env : Env Clip) (arr : List Clip) (elementToLookFor : Clip) : Int :=
  indexOfSortedLoop env arr elementToLookFor (arr.length + 1) 0 arr.length

/-- The member `Array::remove (int index)`. -/
def remove (arr : List Clip) (index : Int) : List Clip :=
  if 0 ≤ index then arr.eraseIdx index.toNat else arr

/-- The member `Array::sort (comparator)`, which hands the elements to `std::sort`. -/
def sort (env : Env Clip) (arr : List Clip) : List Clip :=
  env.stdSort arr

end JuceArray

/-! ## Pattern -/

/-- The undo actions `Pattern.cpp` hands to the undo stack. -/
inductive UndoAction (Clip : Type) where
  | clipInsert (trackId : String) (clip : Clip) : UndoAction Clip
  | clipRemove (trackId : String) (clip : Clip) : UndoAction Clip
  | clipChange (trackId : String) (clip newClip : Clip) : UndoAction Clip
  deriving DecidableEq

/-- A call received by the project's undo stack. -/
inductive StackCall (Clip : Type) where
  | beginNewTransaction (name : String) : StackCall Clip
  | undo : StackCall Clip
  | redo : StackCall Clip
  | perform (action : UndoAction Clip) : StackCall Clip
  | clearUndoHistory : StackCall Clip
  deriving DecidableEq

/-- A call received by the `ProjectEventDispatcher`. -/
inductive Dispatched (Clip : Type) where
  | changeClip (oldClip newClip : Clip) : Dispatched Clip
  | addClip (clip : Clip) : Dispatched Clip
  | removeClip (clip : Clip) : Dispatched Clip
  | postRemoveClip : Dispatched Clip
  | changeTrackContent : Dispatched Clip
  deriving DecidableEq

/-- The state a `Pattern` acts on: its clip array, the id of its track, and the calls it has
made so far to the undo stack and to the event dispatcher (oldest first). -/
structure Pattern (Clip : Type) where
  trackId : String
  clips : List Clip
  stackCalls : List (StackCall Clip)
  dispatched : List (Dispatched Clip)
  deriving DecidableEq

namespace Pattern

variable {Clip : Type}

/-- The constructor `Pattern::Pattern`: one clip, `Clip(this)`. -/
def new (env : Env Clip) (trackId : String) : Pattern Clip :=
  { trackId := trackId, clips := JuceArray.add [] env.create, stackCalls := [], dispatched := [] }

/-- The member `Pattern::notifyClipChanged`. -/
def notifyClipChanged (p : Pattern Clip) (oldClip newClip : Clip) : Pattern Clip :=
  { p with dispatched := p.dispatched ++ [Dispatched.changeClip oldClip newClip] }

/-- The member `Pattern::notifyClipAdded`. -/
def notifyClipAdded (p : Pattern Clip) (clip : Clip) : Pattern Clip :=
  { p with dispatched := p.dispatched ++ [Dispatched.addClip clip] }

/-- The member `Pattern::notifyClipRemoved`. -/
def notifyClipRemoved (p : Pattern Clip) (clip : Clip) : Pattern Clip :=
  { p with dispatched := p.dispatched ++ [Dispatched.removeClip clip] }

/-- The member `Pattern::notifyPatternChanged`. -/
def notifyPatternChanged (p : Pattern Clip) : Pattern Clip :=
  { p with dispatched := p.dispatched ++ [Dispatched.changeTrackContent] }

/-- The member `Pattern::clearQuick`. -/
def clearQuick (p : Pattern Clip) : Pattern Clip :=
  { p with clips := [] }

/-- The member `Pattern::sort`. -/
def sort (env : Env Clip) (p : Pattern Clip) : Pattern Clip :=
  if p.clips.length > 0 then { p with clips := JuceArray.sort env p.clips } else p

/-- The member `Pattern::silentImport`. -/
def silentImport (env : Env Clip) (p : Pattern Clip) (clip : Clip) : Pattern Clip :=
  if ! JuceArray.contains env p.clips clip then
    { p with clips := JuceArray.addSorted env p.clips clip }
  else p

/-- The `else` branch of `Pattern::insert` (lines 113-114). -/
def insertBody (env : Env Clip) (p : Pattern Clip) (clip : Clip) : Pattern Clip :=
  notifyClipAdded { p with clips := JuceArray.addSorted env p.clips clip } clip

/-- The `else` branch of `Pattern::remove` (lines 130-138). -/
def removeBody (env : Env Clip) (p : Pattern Clip) (clip : Clip) : Bool × Pattern Clip :=
  let index := JuceArray.indexOfSorted env p.clips clip
  if index ≥ 0 then
    (true, notifyClipRemoved { p with clips := JuceArray.remove p.clips index } clip)
  else (false, p)

/-- The `else` branch of `Pattern::change` (lines 155-164). -/
def changeBody (env : Env Clip) (p : Pattern Clip) (clip newClip : Clip) :
    Bool × Pattern Clip :=
  let index := JuceArray.indexOfSorted env p.clips clip
  if index ≥ 0 then
    let removed := JuceArray.remove p.clips index
    (true, notifyClipChanged { p with clips := JuceArray.addSorted env removed newClip }
      clip newClip)
  else (false, p)

/-- Modelled from the spec: the members `perform` of `PatternClipInsertAction`,
`PatternClipRemoveAction` and `PatternClipChangeAction` (PatternActions.cpp is not among the
sources).  Each "applies the forward effect by calling the matching Sequence/Pattern primitive
in silent mode after resolving the target Sequence via the Project Adapter by track id"; the
track id stored in the action is the pattern's own, which resolves to the pattern. -/
def performAction (env : Env Clip) (p : Pattern Clip) : UndoAction Clip → Bool × Pattern Clip
  | UndoAction.clipInsert _ clip =>
    if JuceArray.contains env p.clips clip then (false, p) else (true, insertBody env p clip)
  | UndoAction.clipRemove _ clip => removeBody env p clip
  | UndoAction.clipChange _ clip newClip => changeBody env p clip newClip

/-- Modelled from the spec: the member `UndoStack::perform` (UndoStack.cpp is not among the
sources), which "calls `action.perform()`"; what the stack then records of the action is kept
out, the call itself is logged. -/
def stackPerform (env : Env Clip) (p : Pattern Clip) (action : UndoAction Clip) :
    Pattern Clip :=
  (performAction env { p with stackCalls := p.stackCalls ++ [StackCall.perform action] }
    action).2

/-- The member `Pattern::insert`. -/
def insert (env : Env Clip) (p : Pattern Clip) (clip : Clip) (undoable : Bool) :
    Bool × Pattern Clip :=
  if JuceArray.contains env p.clips clip then (false, p)
  else if undoable then
    (true, stackPerform env p (UndoAction.clipInsert p.trackId clip))
  else
    (true, insertBody env p clip)

/-- The member `Pattern::remove`. -/
def remove (env : Env Clip) (p : Pattern Clip) (clip : Clip) (undoable : Bool) :
    Bool × Pattern Clip :=
  if undoable then
    (true, stackPerform env p (UndoAction.clipRemove p.trackId clip))
  else removeBody env p clip

/-- The member `Pattern::change`. -/
def change (env : Env Clip) (p : Pattern Clip) (clip newClip : Clip) (undoable : Bool) :
    Bool × Pattern Clip :=
  if undoable then
    (true, stackPerform env p (UndoAction.clipChange p.trackId clip newClip))
  else changeBody env p clip newClip

/-- The member `Pattern::deserialize`. -/
def deserialize (env : Env Clip) (p : Pattern Clip) (xml : XmlElement) : Pattern Clip :=
  let p1 := clearQuick p
  let root : Option XmlElement :=
    if xml.getTagName = env.patternKey then some xml else xml.getChildByName env.patternKey
  match root with
  | none => p1
  | some r =>
    let p2 : Pattern Clip :=
      (r.childrenWithTagName env.clipKey).foldl
        (fun q e => { q with clips := JuceArray.add q.clips (env.deserialize e) }) p1
    let p3 : Pattern Clip :=
      if p2.clips.length = 0 then { p2 with clips := JuceArray.add p2.clips env.create } else p2
    notifyPatternChanged (sort env p3)

/-- The member `Pattern::reset`. -/
def reset (p : Pattern Clip) : Pattern Clip :=
  notifyPatternChanged (clearQuick p)

end Pattern

/-! ## Order and uniqueness of a clip array -/

section Predicates

variable {Clip : Type}

/-- The array is sorted under the comparator: an earlier element never compares greater than
a later one. -/
def Sorted (env : Env Clip) (arr : List Clip) : Prop :=
  arr.Pairwise (fun a b => env.compareElements a b ≤ 0)

/-- No two elements of the array are equal under the comparator key. -/
def NoDuplicateKeys (env : Env Clip) (arr : List Clip) : Prop :=
  arr.Pairwise (fun a b => env.compareElements a b ≠ 0)

/-- Some element of the array matches `x` under the comparator key. -/
def HasKey (env : Env Clip) (arr : List Clip) (x : Clip) : Prop :=
  ∃ y ∈ arr, env.compareElements x y = 0

instance instDecidableSorted (env : Env Clip) (arr : List Clip) : Decidable (Sorted env arr) := by
  unfold Sorted; infer_instance

instance instDecidableNoDuplicateKeys (env : Env Clip) (arr : List Clip) :
    Decidable (NoDuplicateKeys env arr) := by
  unfold NoDuplicateKeys; infer_instance

instance instDecidableHasKey (env : Env Clip) (arr : List Clip) (x : Clip) :
    Decidable (HasKey env arr x) := by
  unfold HasKey; infer_instance

/-- What the comparator of an ordered container has to satisfy: exchanging the arguments
exchanges the sign, and "not greater" is transitive. -/
structure Env.Ordered (env : Env Clip) : Prop where
  swap : ∀ x y, 0 ≤ env.compareElements x y ↔ env.compareElements y x ≤ 0
  trans : ∀ x y z, env.compareElements x y ≤ 0 → env.compareElements y z ≤ 0 →
    env.compareElements x z ≤ 0

/-- What `std::sort` guarantees: the result is a rearrangement of the input and is sorted. -/
structure Env.SortContract (env : Env Clip) : Prop where
  perm : ∀ arr, (env.stdSort arr).Perm arr
  sorted : ∀ arr, Sorted env (env.stdSort arr)

/-- Clips that are equal under the comparator key are equal under `operator==`. -/
def Env.KeyRefinesEquals (env : Env Clip) : Prop :=
  ∀ x y, env.compareElements x y = 0 → env.equals x y = true

end Predicates

/-! ## Runs of a pattern -/

/-- The operations a run of a pattern is made of; `insert`, `remove` and `change` are the
silent calls (`undoable = false`). -/
inductive Op (Clip : Type) where
  | silentImport (clip : Clip) : Op Clip
  | insert (clip : Clip) : Op Clip
  | remove (clip : Clip) : Op Clip
  | change (clip newClip : Clip) : Op Clip
  | sort : Op Clip
  | deserialize (xml : XmlElement) : Op Clip
  | reset : Op Clip

/-- The state after one operation. -/
def Pattern.step {Clip : Type} (env : Env Clip) (p : Pattern Clip) : Op Clip → Pattern Clip
  | Op.silentImport c => p.silentImport env c
  | Op.insert c => (p.insert env c false).2
  | Op.remove c => (p.remove env c false).2
  | Op.change c n => (p.change env c n false).2
  | Op.sort => p.sort env
  | Op.deserialize xml => p.deserialize env xml
  | Op.reset => p.reset

/-- The state after a sequence of operations, first operation first. -/
def Pattern.run {Clip : Type} (env : Env Clip) (p : Pattern Clip) (ops : List (Op Clip)) :
    Pattern Clip :=
  ops.foldl (Pattern.step env) p

/-- The element `Pattern::deserialize` reads the clips from: the document itself when it is
tagged as a pattern, else its first pattern child. -/
def Pattern.documentRoot {Clip : Type} (env : Env Clip) (xml : XmlElement) : Option XmlElement :=
  if xml.getTagName = env.patternKey then some xml else xml.getChildByName env.patternKey

/-- The clips `Pattern::deserialize` reads from a document, in reading order. -/
def Pattern.documentClips {Clip : Type} (env : Env Clip) (xml : XmlElement) : List Clip :=
  match Pattern.documentRoot env xml with
  | none => []
  | some r => (r.childrenWithTagName env.clipKey).map env.deserialize

/-- The condition under which an operation brings no two key-equal clips together: the new
value of a `change` matches no clip of the pattern besides those the old value matches, and the
clips of a deserialized document differ pairwise under the key. -/
def Op.KeysApart {Clip : Type} (env : Env Clip) (p : Pattern Clip) : Op Clip → Prop
  | Op.change c n =>
    ∀ y ∈ p.clips, env.compareElements n y = 0 → env.compareElements c y = 0
  | Op.deserialize xml => NoDuplicateKeys env (Pattern.documentClips env xml)
  | _ => True

instance Op.instDecidableKeysApart {Clip : Type} (env : Env Clip) (p : Pattern Clip) :
    (op : Op Clip) → Decidable (Op.KeysApart env p op)
  | Op.change c n =>
    inferInstanceAs (Decidable
      (∀ y ∈ p.clips, env.compareElements n y = 0 → env.compareElements c y = 0))
  | Op.deserialize xml =>
    inferInstanceAs (Decidable (NoDuplicateKeys env (Pattern.documentClips env xml)))
  | Op.silentImport _ => isTrue trivial
  | Op.insert _ => isTrue trivial
  | Op.remove _ => isTrue trivial
  | Op.sort => isTrue trivial
  | Op.reset => isTrue trivial

/-- Every operation of the run meets `Op.KeysApart` in the state it is applied to. -/
def Pattern.RunKeysApart {Clip : Type} (env : Env Clip) :
    Pattern Clip → List (Op Clip) → Prop
  | _, [] => True
  | p, op :: ops => Op.KeysApart env p op ∧ Pattern.RunKeysApart env (p.step env op) ops

/-! ## The annotation undo actions -/

namespace Annotations

/-- What `AnnotationEventActions.cpp` uses of `ProjectTreeItem` and of `AnnotationsSequence`
(neither is among the sources): the lookup of a sequence by track id, and the mutators of a
sequence, each acting on the state of the project and returning its C++ result next to the new
state.  The pointer `insert` returns is `none` when it is null. -/
structure ProjectOps (Project Sequence Event : Type) where
  findSequenceByTrackId : Project → String → Option Sequence
  insert : Sequence → Event → Bool → Project → Option Event × Project
  remove : Sequence → Event → Bool → Project → Bool × Project
  change : Sequence → Event → Event → Bool → Project → Bool × Project
  insertGroup : Sequence → List Event → Bool → Project → Bool × Project
  removeGroup : Sequence → List Event → Bool → Project → Bool × Project
  changeGroup : Sequence → List Event → List Event → Bool → Project → Bool × Project

/-- The fields of an `AnnotationEventInsertAction`. -/
structure AnnotationEventInsertAction (Event : Type) where
  trackId : String
  event : Event

/-- The fields of an `AnnotationEventRemoveAction`. -/
structure AnnotationEventRemoveAction (Event : Type) where
  trackId : String
  event : Event

/-- The fields of an `AnnotationEventsGroupInsertAction`. -/
structure AnnotationEventsGroupInsertAction (Event : Type) where
  trackId : String
  annotations : List Event

/-- The fields of an `AnnotationEventsGroupRemoveAction`. -/
structure AnnotationEventsGroupRemoveAction (Event : Type) where
  trackId : String
  annotations : List Event

variable {Project Sequence Event : Type}

/-- The constructor of `AnnotationEventsGroupInsertAction`: the action takes over the
contents of `target` (`swapWith`). -/
def AnnotationEventsGroupInsertAction.new (targetTrackId : String) (target : List Event) :
    AnnotationEventsGroupInsertAction Event :=
  { trackId := targetTrackId, annotations := target }

/-- The constructor of `AnnotationEventsGroupRemoveAction`: the action takes over the
contents of `target` (`swapWith`). -/
def AnnotationEventsGroupRemoveAction.new (targetTrackId : String) (target : List Event) :
    AnnotationEventsGroupRemoveAction Event :=
  { trackId := targetTrackId, annotations := target }

/-- The member `AnnotationEventInsertAction::perform`. -/
def AnnotationEventInsertAction.perform (ops : ProjectOps Project Sequence Event)
    (action : AnnotationEventInsertAction Event) (project : Project) : Bool × Project :=
  match ops.findSequenceByTrackId project action.trackId with
  | some sequence =>
    let r := ops.insert sequence action.event false project
    (r.1.isSome, r.2)
  | none => (false, project)

/-- The member `AnnotationEventInsertAction::undo`. -/
def AnnotationEventInsertAction.undo (ops : ProjectOps Project Sequence Event)
    (action : AnnotationEventInsertAction Event) (project : Project) : Bool × Project :=
  match ops.findSequenceByTrackId project action.trackId with
  | some sequence => ops.remove sequence action.event false project
  | none => (false, project)

/-- The member `AnnotationEventRemoveAction::perform`. -/
def AnnotationEventRemoveAction.perform (ops : ProjectOps Project Sequence Event)
    (action : AnnotationEventRemoveAction Event) (project : Project) : Bool × Project :=
  match ops.findSequenceByTrackId project action.trackId with
  | some sequence => ops.remove sequence action.event false project
  | none => (false, project)

/-- The member `AnnotationEventRemoveAction::undo`. -/
def AnnotationEventRemoveAction.undo (ops : ProjectOps Project Sequence Event)
    (action : AnnotationEventRemoveAction Event) (project : Project) : Bool × Project :=
  match ops.findSequenceByTrackId project action.trackId with
  | some sequence =>
    let r := ops.insert sequence action.event false project
    (r.1.isSome, r.2)
  | none => (false, project)

/-- The member `AnnotationEventsGroupInsertAction::perform`. -/
def AnnotationEventsGroupInsertAction.perform (ops : ProjectOps Project Sequence Event)
    (action : AnnotationEventsGroupInsertAction Event) (project : Project) : Bool × Project :=
  match ops.findSequenceByTrackId project action.trackId with
  | some sequence => ops.insertGroup sequence action.annotations false project
  | none => (false, project)

/-- The member `AnnotationEventsGroupInsertAction::undo`. -/
def AnnotationEventsGroupInsertAction.undo (ops : ProjectOps Project Sequence Event)
    (action : AnnotationEventsGroupInsertAction Event) (project : Project) : Bool × Project :=
  match ops.findSequenceByTrackId project action.trackId with
  | some sequence => ops.removeGroup sequence action.annotations false project
  | none => (false, project)

/-- The member `AnnotationEventsGroupRemoveAction::perform`. -/
def AnnotationEventsGroupRemoveAction.perform (ops : ProjectOps Project Sequence Event)
    (action : AnnotationEventsGroupRemoveAction Event) (project : Project) : Bool × Project :=
  match ops.findSequenceByTrackId project action.trackId with
  | some sequence => ops.removeGroup sequence action.annotations false project
  | none => (false, project)

/-- The member `AnnotationEventsGroupRemoveAction::undo`. -/
def AnnotationEventsGroupRemoveAction.undo (ops : ProjectOps Project Sequence Event)
    (action : AnnotationEventsGroupRemoveAction Event) (project : Project) : Bool × Project :=
  match ops.findSequenceByTrackId project action.trackId with
  | some sequence => ops.insertGroup sequence action.annotations false project
  | none => (false, project)

end Annotations

/-! ## Serialization -/

namespace XmlElement

/-- The constructor `XmlElement (tagName)`: no attribute, no child. -/
def new (tagName : String) : XmlElement :=
  node tagName [] []

/-- The attribute list after `setAttribute`: the value of an attribute of that name is
replaced, else the attribute is added at the end. -/
def setAttributeIn (name value : String) : List (String × String) → List (String × String)
  | [] => [(name, value)]
  | (n, v) :: rest =>
    if n = name then (n, value) :: rest else (n, v) :: setAttributeIn name value rest

/-- The member `XmlElement::setAttribute`. -/
def setAttribute : XmlElement → String → String → XmlElement
  | node t attrs cs, name, value => node t (setAttributeIn name value attrs) cs

/-- The member `XmlElement::getStringAttribute`: the empty string when there is no attribute
of that name. -/
def getStringAttribute : XmlElement → String → String
  | node _ attrs _, name => ((attrs.find? (fun kv => kv.1 == name)).map Prod.snd).getD ""

/-- The member `XmlElement::getFirstChildElement`: `none` is the null pointer. -/
def getFirstChildElement (xml : XmlElement) : Option XmlElement :=
  xml.children.head?

end XmlElement

/-- The member `Pattern::serialize`: every clip, in array order, is prepended to the children
of a new pattern element. -/
def Pattern.serialize {Clip : Type} (env : Env Clip) (p : Pattern Clip) : XmlElement :=
  p.clips.foldl (fun xml clip => xml.prependChildElement (env.serialize clip))
    (XmlElement.new env.patternKey)

namespace Annotations

/-- The keys of `Serialization::Undo` (SerializationKeys.h is not among the sources) that
`AnnotationEventActions.cpp` uses. -/
structure UndoKeys where
  trackId : String
  annotationEventInsertAction : String
  annotationEventRemoveAction : String
  annotationEventChangeAction : String
  annotationBefore : String
  annotationAfter : String
  annotationEventsGroupInsertAction : String
  annotationEventsGroupRemoveAction : String
  annotationEventsGroupChangeAction : String
  groupBefore : String
  groupAfter : String

/-- What `AnnotationEventActions.cpp` uses of `AnnotationEvent` (AnnotationEvent.h is not
among the sources) and of the serialization keys. -/
structure EventEnv (Event : Type) where
  /-- The member `AnnotationEvent::getId`. -/
  getId : Event → String
  /-- The member `AnnotationEvent::serialize`. -/
  serialize : Event → XmlElement
  /-- The event after `event.deserialize (xml)`, given the event before the call. -/
  deserialize : Event → XmlElement → Event
  /-- The event after `event.reset ()`. -/
  reset : Event → Event
  /-- The value built by `AnnotationEvent ()`; it is also what `Array::operator[]` returns
  for an index out of range. -/
  create : Event
  /-- The number `sizeof (AnnotationEvent)`. -/
  sizeOfEvent : Nat
  keys : UndoKeys

/-- The fields of an `AnnotationEventChangeAction`. -/
structure AnnotationEventChangeAction (Event : Type) where
  trackId : String
  eventBefore : Event
  eventAfter : Event

/-- The fields of an `AnnotationEventsGroupChangeAction`. -/
structure AnnotationEventsGroupChangeAction (Event : Type) where
  trackId : String
  eventsBefore : List Event
  eventsAfter : List Event

/-- The dynamic type of an `UndoAction *`: one of the six annotation actions, or an action of
another class. -/
inductive AnnotationUndoAction (Event : Type) where
  | insert (a : AnnotationEventInsertAction Event) : AnnotationUndoAction Event
  | remove (a : AnnotationEventRemoveAction Event) : AnnotationUndoAction Event
  | change (a : AnnotationEventChangeAction Event) : AnnotationUndoAction Event
  | groupInsert (a : AnnotationEventsGroupInsertAction Event) : AnnotationUndoAction Event
  | groupRemove (a : AnnotationEventsGroupRemoveAction Event) : AnnotationUndoAction Event
  | groupChange (a : AnnotationEventsGroupChangeAction Event) : AnnotationUndoAction Event
  | other : AnnotationUndoAction Event

variable {Project Sequence Event : Type}

/-- The member `Array::operator[]`: the element at the index, a default-constructed element
when the index is out of range. -/
def arrayAt (ev : EventEnv Event) (arr : List Event) (index : Nat) : Event :=
  arr.getD index ev.create

/-- The constructor of `AnnotationEventsGroupChangeAction`: both arrays are copied
(`addArray` onto an empty array). -/
def AnnotationEventsGroupChangeAction.new (targetTrackId : String) (state1 state2 : List Event) :
    AnnotationEventsGroupChangeAction Event :=
  { trackId := targetTrackId, eventsBefore := [] ++ state1, eventsAfter := [] ++ state2 }

/-- The member `AnnotationEventChangeAction::perform`. -/
def AnnotationEventChangeAction.perform (ops : ProjectOps Project Sequence Event)
    (action : AnnotationEventChangeAction Event) (project : Project) : Bool × Project :=
  match ops.findSequenceByTrackId project action.trackId with
  | some sequence => ops.change sequence action.eventBefore action.eventAfter false project
  | none => (false, project)

/-- The member `AnnotationEventChangeAction::undo`. -/
def AnnotationEventChangeAction.undo (ops : ProjectOps Project Sequence Event)
    (action : AnnotationEventChangeAction Event) (project : Project) : Bool × Project :=
  match ops.findSequenceByTrackId project action.trackId with
  | some sequence => ops.change sequence action.eventAfter action.eventBefore false project
  | none => (false, project)

/-- The member `AnnotationEventsGroupChangeAction::perform`. -/
def AnnotationEventsGroupChangeAction.perform (ops : ProjectOps Project Sequence Event)
    (action : AnnotationEventsGroupChangeAction Event) (project : Project) : Bool × Project :=
  match ops.findSequenceByTrackId project action.trackId with
  | some sequence =>
    ops.changeGroup sequence action.eventsBefore action.eventsAfter false project
  | none => (false, project)

/-- The member `AnnotationEventsGroupChangeAction::undo`. -/
def AnnotationEventsGroupChangeAction.undo (ops : ProjectOps Project Sequence Event)
    (action : AnnotationEventsGroupChangeAction Event) (project : Project) : Bool × Project :=
  match ops.findSequenceByTrackId project action.trackId with
  | some sequence =>
    ops.changeGroup sequence action.eventsAfter action.eventsBefore false project
  | none => (false, project)

/-- The member `AnnotationEventChangeAction::createCoalescedAction`; `none` is the null
pointer. -/
def AnnotationEventChangeAction.createCoalescedAction (ops : ProjectOps Project Sequence Event)
    (ev : EventEnv Event) (action : AnnotationEventChangeAction Event) (project : Project)
    (nextAction : AnnotationUndoAction Event) : Option (AnnotationUndoAction Event) :=
  match ops.findSequenceByTrackId project action.trackId with
  | some _ =>
    match nextAction with
    | AnnotationUndoAction.change nextChanger =>
      let idsAreEqual : Bool :=
        ev.getId action.eventBefore == ev.getId nextChanger.eventAfter &&
          action.trackId == nextChanger.trackId
      if idsAreEqual then
        some (AnnotationUndoAction.change
          { trackId := action.trackId, eventBefore := action.eventBefore,
            eventAfter := nextChanger.eventAfter })
      else none
    | _ => none
  | none => none

/-- The member `AnnotationEventsGroupChangeAction::createCoalescedAction`; `none` is the null
pointer. -/
def AnnotationEventsGroupChangeAction.createCoalescedAction
    (ops : ProjectOps Project Sequence Event) (ev : EventEnv Event)
    (action : AnnotationEventsGroupChangeAction Event) (project : Project)
    (nextAction : AnnotationUndoAction Event) : Option (AnnotationUndoAction Event) :=
  match ops.findSequenceByTrackId project action.trackId with
  | some _ =>
    match nextAction with
    | AnnotationUndoAction.groupChange nextChanger =>
      if nextChanger.trackId != action.trackId then none
      else
        let arraysContainSameEvents : Bool :=
          action.eventsBefore.length == nextChanger.eventsAfter.length &&
            ev.getId (arrayAt ev action.eventsBefore 0) ==
              ev.getId (arrayAt ev nextChanger.eventsAfter 0)
        if arraysContainSameEvents then
          some (AnnotationUndoAction.groupChange
            (AnnotationEventsGroupChangeAction.new action.trackId action.eventsBefore
              nextChanger.eventsAfter))
        else none
    | _ => none
  | none => none

/-! ### serialize, deserialize and reset

A `deserialize` that applies `*` or `->` to a null pointer has no result: it returns `none`. -/

/-- The children an event array is written to: each event, in array order, is prepended. -/
def prependEvents (ev : EventEnv Event) (xml : XmlElement) (events : List Event) : XmlElement :=
  events.foldl (fun x e => x.prependChildElement (ev.serialize e)) xml

/-- The array read by `forEachXmlChildElement`: one default-constructed and then deserialized
event per child, added in document order. -/
def readEvents (ev : EventEnv Event) (xml : XmlElement) (events : List Event) : List Event :=
  xml.children.foldl (fun arr child => JuceArray.add arr (ev.deserialize ev.create child)) events

/-- The member `AnnotationEventInsertAction::serialize`. -/
def AnnotationEventInsertAction.serialize (ev : EventEnv Event)
    (action : AnnotationEventInsertAction Event) : XmlElement :=
  ((XmlElement.new ev.keys.annotationEventInsertAction).setAttribute ev.keys.trackId
    action.trackId).prependChildElement (ev.serialize action.event)

/-- The member `AnnotationEventInsertAction::deserialize`. -/
def AnnotationEventInsertAction.deserialize (ev : EventEnv Event)
    (action : AnnotationEventInsertAction Event) (xml : XmlElement) :
    Option (AnnotationEventInsertAction Event) :=
  let trackId := xml.getStringAttribute ev.keys.trackId
  match xml.getFirstChildElement with
  | none => none
  | some child => some { trackId := trackId, event := ev.deserialize action.event child }

/-- The member `AnnotationEventInsertAction::reset`. -/
def AnnotationEventInsertAction.reset (ev : EventEnv Event)
    (action : AnnotationEventInsertAction Event) : AnnotationEventInsertAction Event :=
  { trackId := "", event := ev.reset action.event }

/-- The member `AnnotationEventRemoveAction::serialize`. -/
def AnnotationEventRemoveAction.serialize (ev : EventEnv Event)
    (action : AnnotationEventRemoveAction Event) : XmlElement :=
  ((XmlElement.new ev.keys.annotationEventRemoveAction).setAttribute ev.keys.trackId
    action.trackId).prependChildElement (ev.serialize action.event)

/-- The member `AnnotationEventRemoveAction::deserialize`. -/
def AnnotationEventRemoveAction.deserialize (ev : EventEnv Event)
    (action : AnnotationEventRemoveAction Event) (xml : XmlElement) :
    Option (AnnotationEventRemoveAction Event) :=
  let trackId := xml.getStringAttribute ev.keys.trackId
  match xml.getFirstChildElement with
  | none => none
  | some child => some { trackId := trackId, event := ev.deserialize action.event child }

/-- The member `AnnotationEventRemoveAction::reset`. -/
def AnnotationEventRemoveAction.reset (ev : EventEnv Event)
    (action : AnnotationEventRemoveAction Event) : AnnotationEventRemoveAction Event :=
  { trackId := "", event := ev.reset action.event }

/-- The member `AnnotationEventChangeAction::serialize`. -/
def AnnotationEventChangeAction.serialize (ev : EventEnv Event)
    (action : AnnotationEventChangeAction Event) : XmlElement :=
  let xml := (XmlElement.new ev.keys.annotationEventChangeAction).setAttribute ev.keys.trackId
    action.trackId
  let annotationBeforeChild :=
    (XmlElement.new ev.keys.annotationBefore).prependChildElement
      (ev.serialize action.eventBefore)
  let xml1 := xml.prependChildElement annotationBeforeChild
  let annotationAfterChild :=
    (XmlElement.new ev.keys.annotationAfter).prependChildElement (ev.serialize action.eventAfter)
  xml1.prependChildElement annotationAfterChild

/-- The member `AnnotationEventChangeAction::deserialize`. -/
def AnnotationEventChangeAction.deserialize (ev : EventEnv Event)
    (action : AnnotationEventChangeAction Event) (xml : XmlElement) :
    Option (AnnotationEventChangeAction Event) :=
  let trackId := xml.getStringAttribute ev.keys.trackId
  let annotationBeforeChild := xml.getChildByName ev.keys.annotationBefore
  let annotationAfterChild := xml.getChildByName ev.keys.annotationAfter
  match annotationBeforeChild with
  | none => none
  | some beforeChild =>
    match beforeChild.getFirstChildElement with
    | none => none
    | some beforeXml =>
      match annotationAfterChild with
      | none => none
      | some afterChild =>
        match afterChild.getFirstChildElement with
        | none => none
        | some afterXml =>
          some { trackId := trackId
                 eventBefore := ev.deserialize action.eventBefore beforeXml
                 eventAfter := ev.deserialize action.eventAfter afterXml }

/-- The member `AnnotationEventChangeAction::reset`. -/
def AnnotationEventChangeAction.reset (ev : EventEnv Event)
    (action : AnnotationEventChangeAction Event) : AnnotationEventChangeAction Event :=
  { trackId := "", eventBefore := ev.reset action.eventBefore,
    eventAfter := ev.reset action.eventAfter }

/-- The member `AnnotationEventsGroupInsertAction::serialize`. -/
def AnnotationEventsGroupInsertAction.serialize (ev : EventEnv Event)
    (action : AnnotationEventsGroupInsertAction Event) : XmlElement :=
  prependEvents ev
    ((XmlElement.new ev.keys.annotationEventsGroupInsertAction).setAttribute ev.keys.trackId
      action.trackId)
    action.annotations

/-- The member `AnnotationEventsGroupInsertAction::reset`. -/
def AnnotationEventsGroupInsertAction.reset (_action : AnnotationEventsGroupInsertAction Event) :
    AnnotationEventsGroupInsertAction Event :=
  { trackId := "", annotations := [] }

/-- The member `AnnotationEventsGroupInsertAction::deserialize`. -/
def AnnotationEventsGroupInsertAction.deserialize (ev : EventEnv Event)
    (action : AnnotationEventsGroupInsertAction Event) (xml : XmlElement) :
    AnnotationEventsGroupInsertAction Event :=
  let cleared := action.reset
  { trackId := xml.getStringAttribute ev.keys.trackId
    annotations := readEvents ev xml cleared.annotations }

/-- The member `AnnotationEventsGroupRemoveAction::serialize`. -/
def AnnotationEventsGroupRemoveAction.serialize (ev : EventEnv Event)
    (action : AnnotationEventsGroupRemoveAction Event) : XmlElement :=
  prependEvents ev
    ((XmlElement.new ev.keys.annotationEventsGroupRemoveAction).setAttribute ev.keys.trackId
      action.trackId)
    action.annotations

/-- The member `AnnotationEventsGroupRemoveAction::reset`. -/
def AnnotationEventsGroupRemoveAction.reset (_action : AnnotationEventsGroupRemoveAction Event) :
    AnnotationEventsGroupRemoveAction Event :=
  { trackId := "", annotations := [] }

/-- The member `AnnotationEventsGroupRemoveAction::deserialize`. -/
def AnnotationEventsGroupRemoveAction.deserialize (ev : EventEnv Event)
    (action : AnnotationEventsGroupRemoveAction Event) (xml : XmlElement) :
    AnnotationEventsGroupRemoveAction Event :=
  let cleared := action.reset
  { trackId := xml.getStringAttribute ev.keys.trackId
    annotations := readEvents ev xml cleared.annotations }

/-- The member `AnnotationEventsGroupChangeAction::serialize`. -/
def AnnotationEventsGroupChangeAction.serialize (ev : EventEnv Event)
    (action : AnnotationEventsGroupChangeAction Event) : XmlElement :=
  let xml := (XmlElement.new ev.keys.annotationEventsGroupChangeAction).setAttribute
    ev.keys.trackId action.trackId
  let groupBeforeChild := prependEvents ev (XmlElement.new ev.keys.groupBefore) action.eventsBefore
  let groupAfterChild := prependEvents ev (XmlElement.new ev.keys.groupAfter) action.eventsAfter
  (xml.prependChildElement groupBeforeChild).prependChildElement groupAfterChild

/-- The member `AnnotationEventsGroupChangeAction::reset`. -/
def AnnotationEventsGroupChangeAction.reset (_action : AnnotationEventsGroupChangeAction Event) :
    AnnotationEventsGroupChangeAction Event :=
  { trackId := "", eventsBefore := [], eventsAfter := [] }

/-- The member `AnnotationEventsGroupChangeAction::deserialize`. -/
def AnnotationEventsGroupChangeAction.deserialize (ev : EventEnv Event)
    (action : AnnotationEventsGroupChangeAction Event) (xml : XmlElement) :
    Option (AnnotationEventsGroupChangeAction Event) :=
  let cleared := action.reset
  let trackId := xml.getStringAttribute ev.keys.trackId
  let groupBeforeChild := xml.getChildByName ev.keys.groupBefore
  let groupAfterChild := xml.getChildByName ev.keys.groupAfter
  match groupBeforeChild with
  | none => none
  | some beforeChild =>
    match groupAfterChild with
    | none => none
    | some afterChild =>
      some { trackId := trackId
             eventsBefore := readEvents ev beforeChild cleared.eventsBefore
             eventsAfter := readEvents ev afterChild cleared.eventsAfter }

end Annotations

/-! ## The undo stack as `Pattern.cpp` drives it -/

/-- What `Pattern.cpp` uses of `UndoStack` besides `perform` (UndoStack.h is not among the
sources): the answers of `canUndo ()` and `canRedo ()`, and the clip array and notifications
the pattern is left with once the stack has replayed a transaction backwards or forwards. -/
structure UndoStack (Clip : Type) where
  canUndo : Bool
  canRedo : Bool
  replayUndo : Pattern Clip → Pattern Clip
  replayRedo : Pattern Clip → Pattern Clip

namespace Pattern

variable {Clip : Type}

/-- The member `Pattern::checkpoint`: a new transaction with the empty name. -/
def checkpoint (p : Pattern Clip) : Pattern Clip :=
  { p with stackCalls := p.stackCalls ++ [StackCall.beginNewTransaction ""] }

/-- The call `getUndoStack ()->undo ()`: logged, and the pattern takes the clips and the
notifications the replay leaves. -/
def stackUndo (stack : UndoStack Clip) (p : Pattern Clip) : Pattern Clip :=
  { p with
    clips := (stack.replayUndo p).clips
    dispatched := (stack.replayUndo p).dispatched
    stackCalls := p.stackCalls ++ [StackCall.undo] }

/-- The call `getUndoStack ()->redo ()`: logged, and the pattern takes the clips and the
notifications the replay leaves. -/
def stackRedo (stack : UndoStack Clip) (p : Pattern Clip) : Pattern Clip :=
  { p with
    clips := (stack.replayRedo p).clips
    dispatched := (stack.replayRedo p).dispatched
    stackCalls := p.stackCalls ++ [StackCall.redo] }

/-- The member `Pattern::undo`. -/
def undo (stack : UndoStack Clip) (p : Pattern Clip) : Pattern Clip :=
  if stack.canUndo then stackUndo stack (checkpoint p) else p

/-- The member `Pattern::redo`. -/
def redo (stack : UndoStack Clip) (p : Pattern Clip) : Pattern Clip :=
  if stack.canRedo then stackRedo stack p else p

/-- The member `Pattern::clearUndoHistory`. -/
def clearUndoHistory (p : Pattern Clip) : Pattern Clip :=
  { p with stackCalls := p.stackCalls ++ [StackCall.clearUndoHistory] }

end Pattern

/-! ## Sizes and element reads of the annotation actions -/

namespace Annotations

variable {Project Sequence Event : Type}

/-- The `int` a `size_t` value is converted to on return: its low 32 bits, read as a signed
number. -/
def narrowToInt (n : Nat) : Int :=
  if n % 2 ^ 32 < 2 ^ 31 then ((n % 2 ^ 32 : Nat) : Int) else ((n % 2 ^ 32 : Nat) : Int) - 2 ^ 32

/-- The member `AnnotationEventInsertAction::getSizeInUnits`. -/
def AnnotationEventInsertAction.getSizeInUnits (ev : EventEnv Event)
    (_action : AnnotationEventInsertAction Event) : Int :=
  narrowToInt ev.sizeOfEvent

/-- The member `AnnotationEventRemoveAction::getSizeInUnits`. -/
def AnnotationEventRemoveAction.getSizeInUnits (ev : EventEnv Event)
    (_action : AnnotationEventRemoveAction Event) : Int :=
  narrowToInt ev.sizeOfEvent

/-- The member `AnnotationEventChangeAction::getSizeInUnits`. -/
def AnnotationEventChangeAction.getSizeInUnits (ev : EventEnv Event)
    (_action : AnnotationEventChangeAction Event) : Int :=
  narrowToInt (ev.sizeOfEvent * 2)

/-- The member `AnnotationEventsGroupInsertAction::getSizeInUnits`. -/
def AnnotationEventsGroupInsertAction.getSizeInUnits (ev : EventEnv Event)
    (action : AnnotationEventsGroupInsertAction Event) : Int :=
  narrowToInt (ev.sizeOfEvent * action.annotations.length)

/-- The member `AnnotationEventsGroupRemoveAction::getSizeInUnits`. -/
def AnnotationEventsGroupRemoveAction.getSizeInUnits (ev : EventEnv Event)
    (action : AnnotationEventsGroupRemoveAction Event) : Int :=
  narrowToInt (ev.sizeOfEvent * action.annotations.length)

/-- The member `AnnotationEventsGroupChangeAction::getSizeInUnits`. -/
def AnnotationEventsGroupChangeAction.getSizeInUnits (ev : EventEnv Event)
    (action : AnnotationEventsGroupChangeAction Event) : Int :=
  narrowToInt (ev.sizeOfEvent * action.eventsBefore.length +
    ev.sizeOfEvent * action.eventsAfter.length)

/-- A call of `Array::operator[]`: the index asked for and the size of the array. -/
structure ElementRead where
  index : Nat
  size : Nat
  deriving DecidableEq

/-- The index of the read lies within the array. -/
def ElementRead.InBounds (r : ElementRead) : Prop :=
  r.index < r.size

instance ElementRead.instDecidableInBounds (r : ElementRead) : Decidable r.InBounds := by
  unfold ElementRead.InBounds; infer_instance

/-- The calls of `Array::operator[]` that
`AnnotationEventsGroupChangeAction::createCoalescedAction` makes, in order.  The right operand
of `&&` is evaluated only when the two sizes are equal. -/
def AnnotationEventsGroupChangeAction.elementReads (ops : ProjectOps Project Sequence Event)
    (action : AnnotationEventsGroupChangeAction Event) (project : Project)
    (nextAction : AnnotationUndoAction Event) : List ElementRead :=
  match ops.findSequenceByTrackId project action.trackId with
  | some _ =>
    match nextAction with
    | AnnotationUndoAction.groupChange nextChanger =>
      if nextChanger.trackId != action.trackId then []
      else if action.eventsBefore.length == nextChanger.eventsAfter.length then
        [{ index := 0, size := action.eventsBefore.length },
          { index := 0, size := nextChanger.eventsAfter.length }]
      else []
    | _ => []
  | none => []

end Annotations

/-! ## std::sort as libstdc++ implements it -/

namespace GnuSort

variable {α : Type}

/-- The element `*i`; `d` stands for a read outside the array, which the source never makes. -/
def deref (d : α) (a : List α) (i : Nat) : α :=
  a.getD i d

/-- The function `std::iter_swap`. -/
def iterSwap (d : α) (a : List α) (i j : Nat) : List α :=
  (a.set i (deref d a j)).set j (deref d a i)

/-- The function `std::__lg`: the position of the highest set bit. -/
def lgLoop : Nat → Nat → Nat
  | 0, _ => 0
  | k + 1, n => if n ≥ 2 then lgLoop k (n / 2) + 1 else 0

/-- The function `std::__lg`. -/
def lg (n : Nat) : Nat :=
  lgLoop n n

/-- The function `std::__move_median_to_first`. -/
def moveMedianToFirst (lt : α → α → Bool) (d : α) (arr : List α) (result a b c : Nat) :
    List α :=
  if lt (deref d arr a) (deref d arr b) then
    if lt (deref d arr b) (deref d arr c) then iterSwap d arr result b
    else if lt (deref d arr a) (deref d arr c) then iterSwap d arr result c
    else iterSwap d arr result a
  else if lt (deref d arr a) (deref d arr c) then iterSwap d arr result a
  else if lt (deref d arr b) (deref d arr c) then iterSwap d arr result c
  else iterSwap d arr result b

/-- The loop `while (__comp (__first, __pivot)) ++__first;` of `std::__unguarded_partition`.
The source relies on an element not less than the pivot lying ahead; the model also stops at
the end of the array. -/
def scanUp (lt : α → α → Bool) (d : α) (arr : List α) (pivot : Nat) : Nat → Nat → Nat
  | 0, first => first
  | k + 1, first =>
    if first < arr.length ∧ lt (deref d arr first) (deref d arr pivot) = true then
      scanUp lt d arr pivot k (first + 1)
    else first

/-- The loop `while (__comp (__pivot, __last)) --__last;` of `std::__unguarded_partition`.
The source relies on an element not greater than the pivot lying behind; the model also stops
at index 0. -/
def scanDown (lt : α → α → Bool) (d : α) (arr : List α) (pivot : Nat) : Nat → Nat → Nat
  | 0, last => last
  | k + 1, last =>
    if 0 < last ∧ lt (deref d arr pivot) (deref d arr last) = true then
      scanDown lt d arr pivot k (last - 1)
    else last

/-- The function `std::__unguarded_partition`: the array after the swaps and the cut.  Every
round moves `first` forward, so the array length bounds the rounds. -/
def unguardedPartition (lt : α → α → Bool) (d : α) (pivot : Nat) :
    Nat → List α → Nat → Nat → List α × Nat
  | 0, arr, first, _ => (arr, first)
  | k + 1, arr, first, last =>
    let first1 := scanUp lt d arr pivot arr.length first
    let last1 := scanDown lt d arr pivot arr.length (last - 1)
    if ¬ first1 < last1 then (arr, first1)
    else unguardedPartition lt d pivot k (iterSwap d arr first1 last1) (first1 + 1) last1

/-- The function `std::__unguarded_partition_pivot`. -/
def unguardedPartitionPivot (lt : α → α → Bool) (d : α) (arr : List α) (first last : Nat) :
    List α × Nat :=
  let mid := first + (last - first) / 2
  let arr1 := moveMedianToFirst lt d arr first (first + 1) mid (last - 1)
  unguardedPartition lt d first arr1.length arr1 (first + 1) last

/-- The function `std::__introsort_loop`, by recursion on the depth limit.  At depth limit 0
the source sorts the range as a heap (`std::__partial_sort`); that routine is not embedded
and the model has no result there. -/
def introsortLoop (lt : α → α → Bool) (d : α) : Nat → List α → Nat → Nat → Option (List α)
  | 0, arr, first, last => if last - first > 16 then none else some arr
  | depthLimit + 1, arr, first, last =>
    if last - first > 16 then
      let cut := unguardedPartitionPivot lt d arr first last
      match introsortLoop lt d depthLimit cut.1 cut.2 last with
      | none => none
      | some arr1 => introsortLoop lt d depthLimit arr1 first cut.2
    else some arr

/-- The function `std::__unguarded_linear_insert` for the value `val` taken from `*last`. -/
def unguardedLinearInsert (lt : α → α → Bool) (d : α) (val : α) : Nat → List α → Nat → List α
  | 0, arr, last => arr.set last val
  | k + 1, arr, last =>
    if 0 < last ∧ lt val (deref d arr (last - 1)) = true then
      unguardedLinearInsert lt d val k (arr.set last (deref d arr (last - 1))) (last - 1)
    else arr.set last val

/-- One round of the loop of `std::__insertion_sort`: an element less than `*first` is moved
to the front of the range (`move_backward`), any other is inserted from behind. -/
def insertionStep (lt : α → α → Bool) (d : α) (first : Nat) (arr : List α) (i : Nat) : List α :=
  if lt (deref d arr i) (deref d arr first) then
    (arr.eraseIdx i).insertIdx first (deref d arr i)
  else unguardedLinearInsert lt d (deref d arr i) i arr i

/-- The function `std::__insertion_sort`. -/
def insertionSort (lt : α → α → Bool) (d : α) (arr : List α) (first last : Nat) : List α :=
  if first = last then arr
  else (List.range' (first + 1) (last - (first + 1))).foldl (insertionStep lt d first) arr

/-- The function `std::__unguarded_insertion_sort`. -/
def unguardedInsertionSort (lt : α → α → Bool) (d : α) (arr : List α) (first last : Nat) :
    List α :=
  (List.range' first (last - first)).foldl
    (fun a i => unguardedLinearInsert lt d (deref d a i) i a i) arr

/-- The function `std::__final_insertion_sort`. -/
def finalInsertionSort (lt : α → α → Bool) (d : α) (arr : List α) (first last : Nat) : List α :=
  if last - first > 16 then
    unguardedInsertionSort lt d (insertionSort lt d arr first (first + 16)) (first + 16) last
  else insertionSort lt d arr first last

/-- The function `std::sort (first, last, comp)` over the whole array. -/
def sort (lt : α → α → Bool) : List α → Option (List α)
  | [] => some []
  | d :: rest =>
    (introsortLoop lt d (lg (d :: rest).length * 2) (d :: rest) 0 (d :: rest).length).map
      (fun arr => finalInsertionSort lt d arr 0 (d :: rest).length)

end GnuSort

/-! ## A concrete clip type -/

namespace Example

/-- Modelled from the spec: the `Clip` value (Clip.h is not among the sources), with "a stable
identifier", "a time position" and the "reference to originating track". -/
structure Clip where
  id : Nat
  startBeat : Int
  track : Nat
  deriving DecidableEq

/-- Modelled from the spec: the comparator `Clip::compareElements`, "ordered by time then by a
deterministic tie-break (identifier/hash)". -/
def Clip.compareElements (a b : Clip) : Int :=
  if a.startBeat < b.startBeat then -1
  else if b.startBeat < a.startBeat then 1
  else if a.id < b.id then -1
  else if b.id < a.id then 1
  else 0

/-- Modelled from the spec: the `operator==` of `Clip`, the "equality-by-identity semantics
used for lookup": two clips are equal when their identifiers are. -/
def Clip.equals (a b : Clip) : Bool :=
  a.id == b.id

/-- The decimal number written by a list of digits. -/
def readNat (cs : List Char) : Nat :=
  cs.foldl (fun n c => 10 * n + (c.toNat - 48)) 0

/-- The decimal integer written by a string, with an optional leading minus sign. -/
def readInt (s : String) : Int :=
  match s.data with
  | '-' :: cs => - (readNat cs : Int)
  | cs => (readNat cs : Int)

/-- The value of an attribute of an element, the empty string when it is absent. -/
def attributeValue (xml : XmlElement) (name : String) : String :=
  match xml with
  | XmlElement.node _ attrs _ => ((attrs.find? (fun kv => kv.1 == name)).map Prod.snd).getD ""

/-- Modelled from the spec: `Clip::serialize`, "each clip's own fields" under the clip key. -/
def Clip.serialize (c : Clip) : XmlElement :=
  XmlElement.node "clip"
    [("id", toString c.id), ("start", toString c.startBeat), ("track", toString c.track)] []

/-- Modelled from the spec: `Clip::deserialize`, reading back "each clip's own fields". -/
def Clip.deserialize (xml : XmlElement) : Clip :=
  { id := readNat (attributeValue xml "id").data
    startBeat := readInt (attributeValue xml "start")
    track := readNat (attributeValue xml "track").data }

/-- The environment of the concrete clip type: `Clip(this)` is the clip at the origin, and
sorting is by insertion. -/
def clipEnv : Env Clip :=
  { compareElements := Clip.compareElements
    equals := Clip.equals
    create := { id := 0, startBeat := 0, track := 0 }
    deserialize := Clip.deserialize
    serialize := Clip.serialize
    stdSort := List.insertionSort (fun a b => Clip.compareElements a b ≤ 0)
    patternKey := "pattern"
    clipKey := "clip" }

/-- The clip `Clip(this)` of the concrete environment. -/
def origin : Clip := { id := 0, startBeat := 0, track := 0 }

/-- A clip at beat 4. -/
def clipA : Clip := { id := 1, startBeat := 4, track := 0 }

/-- A clip at beat 2. -/
def clipB : Clip := { id := 2, startBeat := 2, track := 0 }

/-- A clip at beat 8. -/
def clipC : Clip := { id := 3, startBeat := 8, track := 0 }

/-- A clip with the identifier and the beat of `clipA`, hence equal to it under the key, that
refers to another track. -/
def clipA2 : Clip := { id := 1, startBeat := 4, track := 7 }

/-- A pattern document that lists `clipA` twice. -/
def twice : XmlElement :=
  XmlElement.node "pattern" [] [Clip.serialize clipA, Clip.serialize clipA]

/-- A pattern document that lists `clipC` and `clipB`. -/
def listed : XmlElement :=
  XmlElement.node "pattern" [] [Clip.serialize clipC, Clip.serialize clipB]

/-- A newly constructed pattern. -/
def fresh : Pattern Clip := Pattern.new clipEnv "track"

/-- A pattern holding `origin`, `clipB` and `clipA`, in that (sorted) order. -/
def three : Pattern Clip :=
  { trackId := "track", clips := [origin, clipB, clipA], stackCalls := [], dispatched := [] }

/-! ### A concrete annotation event and project -/

/-- Modelled from the spec: the annotation event (AnnotationEvent.h is not among the sources),
with "a stable identifier", "a time position" and its text. -/
structure Annotation where
  id : String
  beat : Int
  description : String
  deriving DecidableEq

/-- Modelled from the spec: `AnnotationEvent::serialize`, the event's own fields. -/
def Annotation.serialize (e : Annotation) : XmlElement :=
  XmlElement.node "annotation"
    [("id", e.id), ("beat", toString e.beat), ("text", e.description)] []

/-- Modelled from the spec: `AnnotationEvent::deserialize`, reading back the event's own
fields, whatever the event held before. -/
def Annotation.deserialize (_before : Annotation) (xml : XmlElement) : Annotation :=
  { id := attributeValue xml "id"
    beat := readInt (attributeValue xml "beat")
    description := attributeValue xml "text" }

/-- The empty annotation event. -/
def Annotation.empty : Annotation := { id := "", beat := 0, description := "" }

/-- The environment of the concrete annotation event. -/
def eventEnv : Annotations.EventEnv Annotation :=
  { getId := Annotation.id
    serialize := Annotation.serialize
    deserialize := Annotation.deserialize
    reset := fun _ => Annotation.empty
    create := Annotation.empty
    sizeOfEvent := 48
    keys :=
      { trackId := "trackId"
        annotationEventInsertAction := "annotationEventInsertAction"
        annotationEventRemoveAction := "annotationEventRemoveAction"
        annotationEventChangeAction := "annotationEventChangeAction"
        annotationBefore := "annotationBefore"
        annotationAfter := "annotationAfter"
        annotationEventsGroupInsertAction := "annotationEventsGroupInsertAction"
        annotationEventsGroupRemoveAction := "annotationEventsGroupRemoveAction"
        annotationEventsGroupChangeAction := "annotationEventsGroupChangeAction"
        groupBefore := "groupBefore"
        groupAfter := "groupAfter" } }

/-- Modelled from the spec: a project, as the annotation sequences of its tracks, each under
the id of its track. -/
abbrev Project := List (String × List Annotation)

/-- The events of the sequence of a track, none when the track is unknown. -/
def eventsOf (project : Project) (trackId : String) : List Annotation :=
  ((project.find? (fun t => t.1 == trackId)).map Prod.snd).getD []

/-- The project after the sequence of a track has been rewritten. -/
def withEvents (project : Project) (trackId : String)
    (f : List Annotation → List Annotation) : Project :=
  project.map (fun t => if t.1 == trackId then (t.1, f t.2) else t)

/-- Modelled from the spec: the silent `insert` of a sequence, which "fails (returns false) if
an equal event already exists" and otherwise "inserts directly in sorted position". -/
def sequenceInsert (trackId : String) (e : Annotation) (project : Project) :
    Option Annotation × Project :=
  if (eventsOf project trackId).any (fun x => x.id == e.id) then (none, project)
  else (some e, withEvents project trackId (List.orderedInsert (fun a b => a.beat ≤ b.beat) e))

/-- Modelled from the spec: the silent `remove` of a sequence, which "fails if no matching
event found". -/
def sequenceRemove (trackId : String) (e : Annotation) (project : Project) : Bool × Project :=
  if (eventsOf project trackId).any (fun x => x.id == e.id) then
    (true, withEvents project trackId (List.filter (fun x => x.id != e.id)))
  else (false, project)

/-- Modelled from the spec: the silent `change` of a sequence, which "removes old, inserts
new, preserving sort invariant; fails if `oldEvent` not found". -/
def sequenceChange (trackId : String) (e n : Annotation) (project : Project) : Bool × Project :=
  if (eventsOf project trackId).any (fun x => x.id == e.id) then
    (true, withEvents project trackId (fun es =>
      List.orderedInsert (fun a b => a.beat ≤ b.beat) n (es.filter (fun x => x.id != e.id))))
  else (false, project)

/-- Modelled from the spec: the project of the concrete annotation event.  A track id resolves
to a sequence when the project has a track of that id; the group mutators are the "bulk
variants", applying the single mutator to each element "in source order". -/
def projectOps : Annotations.ProjectOps Project String Annotation :=
  { findSequenceByTrackId := fun project trackId =>
      (project.find? (fun t => t.1 == trackId)).map Prod.fst
    insert := fun s e _ project => sequenceInsert s e project
    remove := fun s e _ project => sequenceRemove s e project
    change := fun s e n _ project => sequenceChange s e n project
    insertGroup := fun s es _ project =>
      (true, es.foldl (fun q e => (sequenceInsert s e q).2) project)
    removeGroup := fun s es _ project =>
      (true, es.foldl (fun q e => (sequenceRemove s e q).2) project)
    changeGroup := fun s es ns _ project =>
      (true, (es.zip ns).foldl (fun q en => (sequenceChange s en.1 en.2 q).2) project) }

/-- An annotation at beat 0. -/
def noteA : Annotation := { id := "a", beat := 0, description := "intro" }

/-- An annotation at beat 16. -/
def noteB : Annotation := { id := "b", beat := 16, description := "verse" }

/-- The annotation `noteA` moved to beat 4. -/
def noteA1 : Annotation := { id := "a", beat := 4, description := "intro" }

/-- The annotation `noteA` moved to beat 8. -/
def noteA2 : Annotation := { id := "a", beat := 8, description := "intro" }

/-- The annotation `noteB` moved to beat 20. -/
def noteB1 : Annotation := { id := "b", beat := 20, description := "verse" }

/-- An annotation at beat 32. -/
def noteC : Annotation := { id := "c", beat := 32, description := "bridge" }

/-- A project with one annotation track, `"annotations"`, holding `noteA` and `noteB`. -/
def project : Project := [("annotations", [noteA, noteB])]

/-- The order `std::sort` is given by `juce::sortArray`: `compareElements (a, b) < 0`. -/
def Clip.less (a b : Clip) : Bool :=
  decide (Clip.compareElements a b < 0)

/-- The concrete environment with the `std::sort` of libstdc++.  Where the model of that
routine has no result (the depth limit is hit) the array is left as it is. -/
def gnuEnv : Env Clip :=
  { clipEnv with stdSort := fun arr => (GnuSort.sort Clip.less arr).getD arr }

/-- The clip with identifier `n` at beat `4 + n`. -/
def later (n : Nat) : Clip := { id := n, startBeat := 4 + (n : Int), track := 0 }

/-- A pattern of seventeen clips in sorted order: the key-equal clips `clipA` and `clipA2`,
then the clips `later 2`, ..., `later 16`. -/
def seventeen : Pattern Clip :=
  { trackId := "track"
    clips := clipA :: clipA2 :: (List.range 15).map (fun n => later (n + 2))
    stackCalls := []
    dispatched := [] }

/-- An undo stack with nothing to undo and nothing to redo. -/
def idleStack : UndoStack Clip :=
  { canUndo := false, canRedo := false, replayUndo := fun p => p, replayRedo := fun p => p }

/-- An undo stack whose last transaction inserted `clipA` into `three`: undoing it removes the
clip silently. -/
def busyStack : UndoStack Clip :=
  { canUndo := true, canRedo := false
    replayUndo := fun p => (p.remove clipEnv clipA false).2
    replayRedo := fun p => p }

end Example

/-! ## The comparator -/

section Comparator

variable {Clip : Type}

theorem Env.Ordered.compare_self {env : Env Clip} (ho : env.Ordered) (x : Clip) :
    env.compareElements x x = 0 := by
  have h := ho.swap x x
  omega

theorem Env.Ordered.zero_symm {env : Env Clip} (ho : env.Ordered) {x y : Clip}
    (h : env.compareElements x y = 0) : env.compareElements y x = 0 := by
  have h1 := ho.swap x y
  have h2 := ho.swap y x
  omega

theorem Env.Ordered.zero_trans {env : Env Clip} (ho : env.Ordered) {x y z : Clip}
    (h1 : env.compareElements x y = 0) (h2 : env.compareElements y z = 0) :
    env.compareElements x z = 0 := by
  have a := ho.trans x y z (by omega) (by omega)
  have b := ho.trans z y x (by have := ho.zero_symm h2; omega) (by have := ho.zero_symm h1; omega)
  have c := ho.swap x z
  omega

theorem Sorted.le_of_lt {env : Env Clip} {arr : List Clip} (hs : Sorted env arr) {i j : Nat}
    {a b : Clip} (hij : i < j) (ha : arr[i]? = some a) (hb : arr[j]? = some b) :
    env.compareElements a b ≤ 0 := by
  unfold Sorted at hs
  rw [List.pairwise_iff_getElem] at hs
  obtain ⟨hi, rfl⟩ := List.getElem?_eq_some.mp ha
  obtain ⟨hj, rfl⟩ := List.getElem?_eq_some.mp hb
  exact hs i j hi hj hij

end Comparator

/-! ## The two binary searches -/

namespace JuceArray

variable {Clip : Type}

/-- The insertion search keeps its answer between the elements not greater than the new one
and the elements not smaller, and never runs out of iterations when given more than
`lastElement - firstElement` of them. -/
theorem findInsertIndexLoop_spec {env : Env Clip} (ho : env.Ordered) {arr : List Clip}
    (hs : Sorted env arr) (x : Clip) :
    ∀ fuel first last, first ≤ last → last ≤ arr.length → last - first < fuel →
      (∀ i y, i < first → arr[i]? = some y → 0 ≤ env.compareElements x y) →
      (∀ i y, last ≤ i → arr[i]? = some y → env.compareElements x y ≤ 0) →
      findInsertIndexLoop env arr x fuel first last ≤ arr.length ∧
      (∀ i y, i < findInsertIndexLoop env arr x fuel first last → arr[i]? = some y →
        0 ≤ env.compareElements x y) ∧
      (∀ i y, findInsertIndexLoop env arr x fuel first last ≤ i → arr[i]? = some y →
        env.compareElements x y ≤ 0) := by
  intro fuel
  induction fuel with
  | zero => intro first last _ _ h; omega
  | succ fuel ih =>
    intro first last hfl hlen hfuel hlow hhigh
    unfold findInsertIndexLoop
    by_cases hlt : first < last
    · simp only [hlt, if_true]
      have hfirst : first < arr.length := by omega
      have e1 : arr[first]? = some arr[first] := List.getElem?_eq_getElem hfirst
      rw [e1]
      simp only []
      by_cases hz : env.compareElements x arr[first] = 0
      · simp only [hz, if_true]
        refine ⟨by omega, ?_, ?_⟩
        · intro i y hi hy
          rcases Nat.lt_succ_iff_lt_or_eq.mp hi with h | h
          · exact hlow i y h hy
          · subst h; rw [e1] at hy; cases hy; omega
        · intro i y hi hy
          have := hs.le_of_lt (show first < i by omega) e1 hy
          exact ho.trans _ _ _ (by omega) this
      · simp only [hz, if_false]
        have hhalf : (first + last) / 2 < arr.length := by omega
        have e2 : arr[(first + last) / 2]? = some arr[(first + last) / 2] :=
          List.getElem?_eq_getElem hhalf
        rw [e2]
        simp only []
        by_cases hh : (first + last) / 2 = first
        · simp only [hh, if_true]
          have hlast : last = first + 1 := by omega
          by_cases hge : env.compareElements x arr[first] ≥ 0
          · simp only [hge, if_true]
            refine ⟨by omega, ?_, ?_⟩
            · intro i y hi hy
              rcases Nat.lt_succ_iff_lt_or_eq.mp hi with h | h
              · exact hlow i y h hy
              · subst h; rw [e1] at hy; cases hy; exact hge
            · intro i y hi hy
              exact hhigh i y (by omega) hy
          · simp only [hge, if_false]
            refine ⟨by omega, hlow, ?_⟩
            intro i y hi hy
            rcases Nat.eq_or_lt_of_le hi with h | h
            · subst h; rw [e1] at hy; cases hy; omega
            · exact hhigh i y (by omega) hy
        · simp only [hh, if_false]
          by_cases hge : env.compareElements x arr[(first + last) / 2] ≥ 0
          · simp only [hge, if_true]
            apply ih _ _ (by omega) hlen (by omega) _ hhigh
            intro i y hi hy
            have h1 := hs.le_of_lt hi hy e2
            have h2 := (ho.swap _ _).mp hge
            exact (ho.swap _ _).mpr (ho.trans _ _ _ h1 h2)
          · simp only [hge, if_false]
            apply ih _ _ (by omega) (by omega) (by omega) hlow
            intro i y hi hy
            rcases Nat.eq_or_lt_of_le hi with h | h
            · subst h; rw [e2] at hy; cases hy; omega
            · have h1 := hs.le_of_lt h e2 hy
              exact ho.trans _ _ _ (by omega) h1
    · simp only [hlt, if_false]
      refine ⟨by omega, hlow, ?_⟩
      intro i y hi hy
      exact hhigh i y (by omega) hy

end JuceArray

section ArrayLemmas

variable {Clip : Type}

/-- Inserting between the elements not greater and the elements not smaller keeps the array
sorted. -/
theorem Sorted.insertIdx_between {env : Env Clip} (ho : env.Ordered) (x : Clip) :
    ∀ (arr : List Clip) (k : Nat), Sorted env arr → k ≤ arr.length →
      (∀ i y, i < k → arr[i]? = some y → 0 ≤ env.compareElements x y) →
      (∀ i y, k ≤ i → arr[i]? = some y → env.compareElements x y ≤ 0) →
      Sorted env (arr.insertIdx k x) := by
  intro arr
  induction arr with
  | nil =>
    intro k _ hk _ _
    have : k = 0 := by simpa using hk
    subst this
    simp [Sorted]
  | cons a arr ih =>
    intro k hs hk hlow hhigh
    cases k with
    | zero =>
      simp only [List.insertIdx_zero]
      unfold Sorted at hs ⊢
      refine List.Pairwise.cons ?_ hs
      intro y hy
      obtain ⟨i, hi, rfl⟩ := List.getElem_of_mem hy
      exact hhigh i _ (Nat.zero_le _) (List.getElem?_eq_getElem hi)
    | succ k =>
      simp only [List.insertIdx_succ_cons]
      have hk1 : k ≤ arr.length := by simpa using hk
      unfold Sorted at hs
      rw [List.pairwise_cons] at hs
      have hrec : Sorted env (arr.insertIdx k x) := by
        apply ih k hs.2 hk1
        · intro i y hi hy
          exact hlow (i + 1) y (by omega) (by simpa using hy)
        · intro i y hi hy
          exact hhigh (i + 1) y (by omega) (by simpa using hy)
      unfold Sorted
      refine List.Pairwise.cons ?_ hrec
      intro y hy
      rcases (List.mem_insertIdx hk1).mp hy with h | h
      · subst h
        have := hlow 0 a (by omega) (by simp)
        exact (ho.swap _ _).mp this
      · exact hs.1 y h

end ArrayLemmas

namespace JuceArray

variable {Clip : Type}

theorem findInsertIndexInSortedArray_le {env : Env Clip} (ho : env.Ordered) {arr : List Clip}
    (hs : Sorted env arr) (x : Clip) :
    findInsertIndexInSortedArray env arr x ≤ arr.length :=
  (findInsertIndexLoop_spec ho hs x (arr.length + 1) 0 arr.length (Nat.zero_le _) (Nat.le_refl _)
    (by omega) (fun i y hi _ => absurd hi (Nat.not_lt_zero i))
    (fun i y hi hy => by
      obtain ⟨h, _⟩ := List.getElem?_eq_some.mp hy
      omega)).1

/-- On a sorted array `addSorted` yields a sorted array. -/
theorem addSorted_sorted {env : Env Clip} (ho : env.Ordered) {arr : List Clip}
    (hs : Sorted env arr) (x : Clip) : Sorted env (addSorted env arr x) := by
  have h := findInsertIndexLoop_spec ho hs x (arr.length + 1) 0 arr.length (Nat.zero_le _)
    (Nat.le_refl _) (by omega) (fun i y hi _ => absurd hi (Nat.not_lt_zero i))
    (fun i y hi hy => by
      obtain ⟨h, _⟩ := List.getElem?_eq_some.mp hy
      omega)
  exact Sorted.insertIdx_between ho x arr _ hs h.1 h.2.1 h.2.2

/-- What the lookup returns: `-1`, or the index of an element that matches under the key,
within the searched range. -/
theorem indexOfSortedLoop_sound (env : Env Clip) (arr : List Clip) (x : Clip) :
    ∀ fuel s e, indexOfSortedLoop env arr x fuel s e = -1 ∨
      ∃ (i : Nat) (y : Clip), indexOfSortedLoop env arr x fuel s e = (i : Int) ∧ s ≤ i ∧ i < e ∧
        arr[i]? = some y ∧ env.compareElements x y = 0 := by
  intro fuel
  induction fuel with
  | zero => intro s e; left; rfl
  | succ fuel ih =>
    intro s e
    unfold indexOfSortedLoop
    by_cases hse : s ≥ e
    · simp only [hse, if_true]; left; trivial
    · simp only [hse, if_false]
      cases hs : arr[s]? with
      | none => left; rfl
      | some atS =>
        simp only []
        by_cases hz : env.compareElements x atS = 0
        · simp only [hz, if_true]
          right
          exact ⟨s, atS, rfl, Nat.le_refl _, by omega, hs, hz⟩
        · simp only [hz, if_false]
          by_cases hh : (s + e) / 2 = s
          · simp only [hh, if_true]; left; trivial
          · simp only [hh, if_false]
            cases hm : arr[(s + e) / 2]? with
            | none => left; rfl
            | some atHalf =>
              simp only []
              by_cases hge : env.compareElements x atHalf ≥ 0
              · simp only [hge, if_true]
                rcases ih ((s + e) / 2) e with h | ⟨i, y, h1, h2, h3, h4, h5⟩
                · left; exact h
                · right; exact ⟨i, y, h1, by omega, h3, h4, h5⟩
              · simp only [hge, if_false]
                rcases ih s ((s + e) / 2) with h | ⟨i, y, h1, h2, h3, h4, h5⟩
                · left; exact h
                · right; exact ⟨i, y, h1, h2, by omega, h4, h5⟩

/-- On a sorted array the lookup finds a match whenever the searched range holds one, and
never runs out of iterations when given more than `e - s` of them. -/
theorem indexOfSortedLoop_complete {env : Env Clip} (ho : env.Ordered) {arr : List Clip}
    (hsort : Sorted env arr) (x : Clip) :
    ∀ fuel s e, e ≤ arr.length → e - s < fuel →
      (∃ m y, s ≤ m ∧ m < e ∧ arr[m]? = some y ∧ env.compareElements x y = 0) →
      indexOfSortedLoop env arr x fuel s e ≠ -1 := by
  intro fuel
  induction fuel with
  | zero => intro s e _ h; omega
  | succ fuel ih =>
    intro s e hlen hfuel hex
    obtain ⟨m, y, hsm, hme, hmy, hmz⟩ := hex
    unfold indexOfSortedLoop
    have hse : ¬ s ≥ e := by omega
    simp only [hse, if_false]
    have e1 : arr[s]? = some arr[s] := List.getElem?_eq_getElem (by omega)
    rw [e1]
    simp only []
    by_cases hz : env.compareElements x arr[s] = 0
    · simp only [hz, if_true]; omega
    · simp only [hz, if_false]
      have hms : m ≠ s := by
        intro h
        rw [h, e1] at hmy
        have hy := Option.some.inj hmy
        rw [← hy] at hmz
        exact hz hmz
      by_cases hh : (s + e) / 2 = s
      · omega
      · simp only [hh, if_false]
        have e2 : arr[(s + e) / 2]? = some arr[(s + e) / 2] :=
          List.getElem?_eq_getElem (by omega)
        rw [e2]
        simp only []
        by_cases hge : env.compareElements x arr[(s + e) / 2] ≥ 0
        · simp only [hge, if_true]
          apply ih _ _ hlen (by omega)
          by_cases hmh : (s + e) / 2 ≤ m
          · exact ⟨m, y, hmh, hme, hmy, hmz⟩
          · refine ⟨(s + e) / 2, _, Nat.le_refl _, by omega, e2, ?_⟩
            have h1 := hsort.le_of_lt (show m < (s + e) / 2 by omega) hmy e2
            have h2 := ho.trans _ _ _ (show env.compareElements x y ≤ 0 by omega) h1
            omega
        · simp only [hge, if_false]
          apply ih _ _ (by omega) (by omega)
          refine ⟨m, y, hsm, ?_, hmy, hmz⟩
          by_contra hcon
          have hle : (s + e) / 2 ≤ m := by omega
          rcases Nat.eq_or_lt_of_le hle with h | h
          · rw [← h, e2] at hmy
            have hy := Option.some.inj hmy
            rw [← hy] at hmz
            omega
          · have h1 := hsort.le_of_lt h e2 hmy
            have h2 := ho.zero_symm hmz
            have h3 := ho.trans _ _ _ h1 (show env.compareElements y x ≤ 0 by omega)
            have h4 := (ho.swap _ _).mpr h3
            exact hge h4

/-- The lookup answers `-1` or the index of an element that matches under the key. -/
theorem indexOfSorted_sound (env : Env Clip) (arr : List Clip) (x : Clip) :
    indexOfSorted env arr x = -1 ∨
      ∃ (i : Nat) (y : Clip), indexOfSorted env arr x = (i : Int) ∧ arr[i]? = some y ∧
        env.compareElements x y = 0 := by
  rcases indexOfSortedLoop_sound env arr x (arr.length + 1) 0 arr.length with
    h | ⟨i, y, h1, _, _, h4, h5⟩
  · left; exact h
  · right; exact ⟨i, y, h1, h4, h5⟩

/-- Without a match under the key the lookup answers `-1`, sorted array or not. -/
theorem indexOfSorted_of_not_hasKey {env : Env Clip} {arr : List Clip} {x : Clip}
    (h : ¬ HasKey env arr x) : indexOfSorted env arr x = -1 := by
  rcases indexOfSorted_sound env arr x with h1 | ⟨i, y, _, h2, h3⟩
  · exact h1
  · obtain ⟨hi, rfl⟩ := List.getElem?_eq_some.mp h2
    exact absurd ⟨_, List.getElem_mem hi, h3⟩ h

/-- On a sorted array the lookup finds an element that matches whenever there is one. -/
theorem indexOfSorted_of_hasKey {env : Env Clip} (ho : env.Ordered) {arr : List Clip}
    (hs : Sorted env arr) {x : Clip} (h : HasKey env arr x) :
    ∃ (i : Nat) (y : Clip), indexOfSorted env arr x = (i : Int) ∧ arr[i]? = some y ∧
      env.compareElements x y = 0 := by
  rcases indexOfSorted_sound env arr x with h1 | h1
  · obtain ⟨y, hy, hz⟩ := h
    obtain ⟨m, hm, rfl⟩ := List.getElem_of_mem hy
    exact absurd h1 (indexOfSortedLoop_complete ho hs x (arr.length + 1) 0 arr.length
      (Nat.le_refl _) (by omega) ⟨m, _, Nat.zero_le _, hm, List.getElem?_eq_getElem hm, hz⟩)
  · exact h1

end JuceArray

/-! ## The concrete clip type satisfies the laws -/

namespace Example

theorem clipEnv_ordered : clipEnv.Ordered := by
  constructor
  · intro x y
    simp only [clipEnv, Clip.compareElements]
    split_ifs <;> omega
  · intro x y z
    simp only [clipEnv, Clip.compareElements]
    split_ifs <;> omega

theorem clipEnv_keyRefinesEquals : clipEnv.KeyRefinesEquals := by
  intro x y h
  simp only [clipEnv, Clip.compareElements] at h
  simp only [clipEnv, Clip.equals, beq_iff_eq]
  split_ifs at h <;> omega

theorem clipEnv_sortContract : clipEnv.SortContract := by
  have htotal : IsTotal Clip (fun a b => Clip.compareElements a b ≤ 0) :=
    ⟨fun a b => by
      have h := clipEnv_ordered.swap a b
      simp only [clipEnv] at h
      omega⟩
  have htrans : IsTrans Clip (fun a b => Clip.compareElements a b ≤ 0) :=
    ⟨fun a b c => clipEnv_ordered.trans a b c⟩
  constructor
  · intro arr
    exact List.perm_insertionSort _ arr
  · intro arr
    show List.Sorted (fun a b => Clip.compareElements a b ≤ 0)
      (List.insertionSort (fun a b => Clip.compareElements a b ≤ 0) arr)
    exact List.sorted_insertionSort _ arr

end Example

/-! ## The mutators of `Pattern` -/

namespace Pattern

variable {Clip : Type}

/-- C1: for every pattern, every clip the pattern already contains (under `operator==`) and
either value of `undoable`, `insert` returns false, leaves the clip array unchanged, makes no
call to the undo stack and dispatches no notification. -/
theorem insert_of_contains (env : Env Clip) (p : Pattern Clip) (clip : Clip) (undoable : Bool)
    (h : JuceArray.contains env p.clips clip = true) :
    (p.insert env clip undoable).1 = false ∧
    (p.insert env clip undoable).2.clips = p.clips ∧
    (p.insert env clip undoable).2.stackCalls = p.stackCalls ∧
    (p.insert env clip undoable).2.dispatched = p.dispatched := by
  simp [insert, h]

/-- C2: for every pattern with a sorted clip array and every clip it does not contain, the
silent `insert` returns true, the resulting array is sorted, is one longer, and is the old
array with the clip put in at one position, every other element keeping its place in the
order. -/
theorem insert_silent_of_not_contains {env : Env Clip} (ho : env.Ordered) (p : Pattern Clip)
    (clip : Clip) (hs : Sorted env p.clips) (h : JuceArray.contains env p.clips clip = false) :
    (p.insert env clip false).1 = true ∧
    Sorted env (p.insert env clip false).2.clips ∧
    (p.insert env clip false).2.clips.length = p.clips.length + 1 ∧
    ∃ k, k ≤ p.clips.length ∧ (p.insert env clip false).2.clips = p.clips.insertIdx k clip := by
  have hk := JuceArray.findInsertIndexInSortedArray_le ho hs clip
  have hsorted := JuceArray.addSorted_sorted ho hs clip
  simp only [insert, h, insertBody, notifyClipAdded, Bool.false_eq_true, if_false]
  refine ⟨trivial, hsorted, ?_, _, hk, rfl⟩
  simp only [JuceArray.addSorted]
  exact List.length_insertIdx _ _ hk

/-- C3, as amended: when no clip of the pattern matches `clip` under the comparator key, the
silent `remove` returns false and changes nothing, whereas the undoable `remove` returns true
after handing a remove action to the undo stack, the clip array being left as it was. -/
theorem remove_of_not_hasKey (env : Env Clip) (p : Pattern Clip) (clip : Clip)
    (h : ¬ HasKey env p.clips clip) :
    p.remove env clip false = (false, p) ∧
    (p.remove env clip true).1 = true ∧
    (p.remove env clip true).2.clips = p.clips ∧
    (p.remove env clip true).2.stackCalls =
      p.stackCalls ++ [StackCall.perform (UndoAction.clipRemove p.trackId clip)] := by
  have hi := JuceArray.indexOfSorted_of_not_hasKey h
  simp [remove, removeBody, stackPerform, performAction, hi]

/-- C4, as amended: when `clip` is not found in the pattern (no clip matches it under the
comparator key, or the lookup returns a negative index), the silent `change` returns false
and changes nothing, whereas the undoable `change` returns true after handing a change action
to the undo stack, the clip array being left as it was. -/
theorem change_of_not_found (env : Env Clip) (p : Pattern Clip) (clip newClip : Clip)
    (h : ¬ HasKey env p.clips clip ∨ JuceArray.indexOfSorted env p.clips clip < 0) :
    p.change env clip newClip false = (false, p) ∧
    (p.change env clip newClip true).1 = true ∧
    (p.change env clip newClip true).2.clips = p.clips ∧
    (p.change env clip newClip true).2.stackCalls =
      p.stackCalls ++ [StackCall.perform (UndoAction.clipChange p.trackId clip newClip)] := by
  have hi : ¬ JuceArray.indexOfSorted env p.clips clip ≥ 0 := by
    rcases h with h | h
    · rw [JuceArray.indexOfSorted_of_not_hasKey h]; omega
    · omega
  simp [change, changeBody, stackPerform, performAction, hi]

/-- C5: for every pattern with a sorted clip array, every clip `a` that matches a clip of the
pattern under the comparator key and every clip `b`, the silent `change` returns true, the
resulting array is sorted, has the old length, and is the old array with one element matching
`a` taken out and `b` put in. -/
theorem change_silent_of_hasKey {env : Env Clip} (ho : env.Ordered) (p : Pattern Clip)
    (a b : Clip) (hs : Sorted env p.clips) (h : HasKey env p.clips a) :
    (p.change env a b false).1 = true ∧
    Sorted env (p.change env a b false).2.clips ∧
    (p.change env a b false).2.clips.length = p.clips.length ∧
    ∃ (i k : Nat) (y : Clip), p.clips[i]? = some y ∧ env.compareElements a y = 0 ∧
      k ≤ (p.clips.eraseIdx i).length ∧
      (p.change env a b false).2.clips = (p.clips.eraseIdx i).insertIdx k b := by
  obtain ⟨i, y, hi, hy, hz⟩ := JuceArray.indexOfSorted_of_hasKey ho hs h
  obtain ⟨hlt, _⟩ := List.getElem?_eq_some.mp hy
  have hs1 : Sorted env (p.clips.eraseIdx i) :=
    List.Pairwise.sublist (List.eraseIdx_sublist _ _) hs
  have hk := JuceArray.findInsertIndexInSortedArray_le ho hs1 b
  have hsorted := JuceArray.addSorted_sorted ho hs1 b
  have hge : JuceArray.indexOfSorted env p.clips a ≥ 0 := by omega
  have hrem : JuceArray.remove p.clips (JuceArray.indexOfSorted env p.clips a) =
      p.clips.eraseIdx i := by
    simp [JuceArray.remove, hi]
  simp only [change, changeBody, notifyClipChanged, hge, hrem, Bool.false_eq_true, if_false,
    if_true]
  refine ⟨trivial, hsorted, ?_, i, _, y, hy, hz, hk, rfl⟩
  simp only [JuceArray.addSorted]
  rw [List.length_insertIdx _ _ hk, List.length_eraseIdx_of_lt hlt]
  omega

end Pattern

namespace Pattern

open Example

/-- Witness of C1. -/
theorem insert_of_contains_witness :
    JuceArray.contains clipEnv three.clips clipB = true ∧
    ((three.insert clipEnv clipB true).1 = false ∧
      (three.insert clipEnv clipB true).2.clips = three.clips ∧
      (three.insert clipEnv clipB true).2.stackCalls = three.stackCalls ∧
      (three.insert clipEnv clipB true).2.dispatched = three.dispatched) :=
  ⟨by decide, insert_of_contains clipEnv three clipB true (by decide)⟩

/-- Witness of C2. -/
theorem insert_silent_of_not_contains_witness :
    (Sorted clipEnv three.clips ∧ JuceArray.contains clipEnv three.clips clipC = false) ∧
    ((three.insert clipEnv clipC false).1 = true ∧
      Sorted clipEnv (three.insert clipEnv clipC false).2.clips ∧
      (three.insert clipEnv clipC false).2.clips.length = three.clips.length + 1 ∧
      ∃ k, k ≤ three.clips.length ∧
        (three.insert clipEnv clipC false).2.clips = three.clips.insertIdx k clipC) :=
  ⟨⟨by decide, by decide⟩,
    insert_silent_of_not_contains clipEnv_ordered three clipC (by decide) (by decide)⟩

/-- C3 fails as stated: no clip of a new pattern matches `clipA`, yet the undoable `remove`
returns true. -/
theorem remove_undoable_counterexample :
    ¬ (¬ HasKey clipEnv fresh.clips clipA →
        ∀ undoable : Bool, (fresh.remove clipEnv clipA undoable).1 = false ∧
          (fresh.remove clipEnv clipA undoable).2.clips = fresh.clips) := by
  intro h
  have h1 := (h (by decide) true).1
  revert h1
  decide

/-- Witness of C3 as amended. -/
theorem remove_of_not_hasKey_witness :
    ¬ HasKey clipEnv three.clips clipC ∧
    (three.remove clipEnv clipC false = (false, three) ∧
      (three.remove clipEnv clipC true).1 = true ∧
      (three.remove clipEnv clipC true).2.clips = three.clips ∧
      (three.remove clipEnv clipC true).2.stackCalls =
        three.stackCalls ++ [StackCall.perform (UndoAction.clipRemove three.trackId clipC)]) :=
  ⟨by decide, remove_of_not_hasKey clipEnv three clipC (by decide)⟩

/-- C4 fails as stated: `clipA` is not found in a new pattern, yet the undoable `change`
returns true. -/
theorem change_undoable_counterexample :
    ¬ (JuceArray.indexOfSorted clipEnv fresh.clips clipA < 0 →
        ∀ undoable : Bool, (fresh.change clipEnv clipA clipC undoable).1 = false ∧
          (fresh.change clipEnv clipA clipC undoable).2.clips = fresh.clips) := by
  intro h
  have h1 := (h (by decide) true).1
  revert h1
  decide

/-- Witness of C4 as amended. -/
theorem change_of_not_found_witness :
    (¬ HasKey clipEnv three.clips clipC ∨ JuceArray.indexOfSorted clipEnv three.clips clipC < 0) ∧
    (three.change clipEnv clipC clipA2 false = (false, three) ∧
      (three.change clipEnv clipC clipA2 true).1 = true ∧
      (three.change clipEnv clipC clipA2 true).2.clips = three.clips ∧
      (three.change clipEnv clipC clipA2 true).2.stackCalls =
        three.stackCalls ++
          [StackCall.perform (UndoAction.clipChange three.trackId clipC clipA2)]) :=
  ⟨Or.inl (by decide), change_of_not_found clipEnv three clipC clipA2 (Or.inl (by decide))⟩

/-- Witness of C5. -/
theorem change_silent_of_hasKey_witness :
    (Sorted clipEnv three.clips ∧ HasKey clipEnv three.clips clipB) ∧
    ((three.change clipEnv clipB clipC false).1 = true ∧
      Sorted clipEnv (three.change clipEnv clipB clipC false).2.clips ∧
      (three.change clipEnv clipB clipC false).2.clips.length = three.clips.length ∧
      ∃ (i k : Nat) (y : Clip), three.clips[i]? = some y ∧ clipEnv.compareElements clipB y = 0 ∧
        k ≤ (three.clips.eraseIdx i).length ∧
        (three.change clipEnv clipB clipC false).2.clips =
          (three.clips.eraseIdx i).insertIdx k clipC) :=
  ⟨⟨by decide, by decide⟩,
    change_silent_of_hasKey clipEnv_ordered three clipB clipC (by decide) (by decide)⟩

end Pattern

/-! ## Sortedness along a run -/

namespace Pattern

variable {Clip : Type}

theorem sorted_remove {env : Env Clip} {arr : List Clip} (hs : Sorted env arr) (index : Int) :
    Sorted env (JuceArray.remove arr index) := by
  unfold JuceArray.remove
  split
  · exact List.Pairwise.sublist (List.eraseIdx_sublist _ _) hs
  · exact hs

theorem sorted_sort {env : Env Clip} (hc : env.SortContract) (p : Pattern Clip) :
    Sorted env (p.sort env).clips := by
  unfold sort
  split
  · exact hc.sorted _
  · rename_i h
    have : p.clips = [] := List.length_eq_zero.mp (by omega)
    rw [this]
    exact List.Pairwise.nil

theorem sorted_deserialize {env : Env Clip} (hc : env.SortContract) (p : Pattern Clip)
    (xml : XmlElement) : Sorted env (p.deserialize env xml).clips := by
  unfold deserialize
  simp only []
  split
  · exact List.Pairwise.nil
  · exact sorted_sort hc _

/-- Every operation of a run keeps a sorted clip array sorted. -/
theorem sorted_step {env : Env Clip} (ho : env.Ordered) (hc : env.SortContract)
    (p : Pattern Clip) (hs : Sorted env p.clips) (op : Op Clip) :
    Sorted env (p.step env op).clips := by
  cases op with
  | silentImport c =>
    simp only [step, silentImport]
    split
    · exact JuceArray.addSorted_sorted ho hs c
    · exact hs
  | insert c =>
    simp only [step, insert, Bool.false_eq_true, if_false]
    split
    · exact hs
    · exact JuceArray.addSorted_sorted ho hs c
  | remove c =>
    simp only [step, remove, removeBody, Bool.false_eq_true, if_false]
    split
    · exact sorted_remove hs _
    · exact hs
  | change c n =>
    simp only [step, change, changeBody, Bool.false_eq_true, if_false]
    split
    · exact JuceArray.addSorted_sorted ho (sorted_remove hs _) n
    · exact hs
  | sort => exact sorted_sort hc p
  | deserialize xml => exact sorted_deserialize hc p xml
  | reset => exact List.Pairwise.nil

theorem sorted_new (env : Env Clip) (trackId : String) : Sorted env (new env trackId).clips := by
  simp [new, JuceArray.add, Sorted]

/-- C6: sortedness is an invariant of `Pattern`: every state reached from the constructor by
any sequence of `silentImport`, silent `insert`, `remove` and `change`, `sort`, `deserialize`
and `reset` has its clip array sorted under the clip comparator. -/
theorem run_sorted {env : Env Clip} (ho : env.Ordered) (hc : env.SortContract)
    (trackId : String) (ops : List (Op Clip)) :
    Sorted env ((new env trackId).run env ops).clips := by
  have key : ∀ (ops : List (Op Clip)) (p : Pattern Clip), Sorted env p.clips →
      Sorted env (p.run env ops).clips := by
    intro ops
    induction ops with
    | nil => intro p hp; exact hp
    | cons op ops ih =>
      intro p hp
      exact ih (p.step env op) (sorted_step ho hc p hp op)
  exact key ops _ (sorted_new env trackId)

end Pattern

/-! ## Duplicates along a run -/

section Duplicates

variable {Clip : Type}

theorem NoDuplicateKeys.ne_of_ne {env : Env Clip} (ho : env.Ordered) {arr : List Clip}
    (hd : NoDuplicateKeys env arr) {i j : Nat} {a b : Clip} (hij : i ≠ j)
    (ha : arr[i]? = some a) (hb : arr[j]? = some b) : env.compareElements a b ≠ 0 := by
  unfold NoDuplicateKeys at hd
  rw [List.pairwise_iff_getElem] at hd
  obtain ⟨hi, rfl⟩ := List.getElem?_eq_some.mp ha
  obtain ⟨hj, rfl⟩ := List.getElem?_eq_some.mp hb
  rcases Nat.lt_or_gt_of_ne hij with h | h
  · exact hd i j hi hj h
  · intro hz
    exact hd j i hj hi h (ho.zero_symm hz)

theorem NoDuplicateKeys.of_perm {env : Env Clip} (ho : env.Ordered) {l₁ l₂ : List Clip}
    (hp : l₁.Perm l₂) (hd : NoDuplicateKeys env l₂) : NoDuplicateKeys env l₁ := by
  unfold NoDuplicateKeys at hd ⊢
  refine (List.Perm.pairwise_iff ?_ hp).mpr hd
  intro x y hxy hz
  exact hxy (ho.zero_symm hz)

theorem NoDuplicateKeys.insertIdx_fresh {env : Env Clip} (ho : env.Ordered) {arr : List Clip}
    (hd : NoDuplicateKeys env arr) {k : Nat} (hk : k ≤ arr.length) {x : Clip}
    (hx : ∀ y ∈ arr, env.compareElements x y ≠ 0) : NoDuplicateKeys env (arr.insertIdx k x) := by
  refine NoDuplicateKeys.of_perm ho (List.perm_insertIdx x arr hk) ?_
  exact List.Pairwise.cons hx hd

theorem NoDuplicateKeys.addSorted_fresh {env : Env Clip} (ho : env.Ordered) {arr : List Clip}
    (hs : Sorted env arr) (hd : NoDuplicateKeys env arr) {x : Clip}
    (hx : ∀ y ∈ arr, env.compareElements x y ≠ 0) :
    NoDuplicateKeys env (JuceArray.addSorted env arr x) :=
  NoDuplicateKeys.insertIdx_fresh ho hd (JuceArray.findInsertIndexInSortedArray_le ho hs x) hx

theorem NoDuplicateKeys.remove_index {env : Env Clip} {arr : List Clip} (hd : NoDuplicateKeys env arr)
    (index : Int) : NoDuplicateKeys env (JuceArray.remove arr index) := by
  unfold JuceArray.remove
  split
  · exact List.Pairwise.sublist (List.eraseIdx_sublist _ _) hd
  · exact hd

theorem not_key_of_not_contains {env : Env Clip} (hk : env.KeyRefinesEquals) {arr : List Clip}
    {x : Clip} (h : JuceArray.contains env arr x = false) :
    ∀ y ∈ arr, env.compareElements x y ≠ 0 := by
  intro y hy hz
  have h1 := hk x y hz
  have h2 : JuceArray.contains env arr x = true := by
    simp only [JuceArray.contains, List.any_eq_true]
    exact ⟨y, hy, h1⟩
  rw [h] at h2
  exact Bool.noConfusion h2

end Duplicates

namespace Pattern

variable {Clip : Type}

theorem clips_foldl_add (env : Env Clip) (es : List XmlElement) :
    ∀ q : Pattern Clip,
      (es.foldl (fun q e => { q with clips := JuceArray.add q.clips (env.deserialize e) })
        q).clips = q.clips ++ es.map env.deserialize := by
  induction es with
  | nil => intro q; simp
  | cons e es ih =>
    intro q
    simp only [List.foldl_cons, List.map_cons]
    rw [ih]
    simp [JuceArray.add]

theorem noDuplicateKeys_sort {env : Env Clip} (ho : env.Ordered) (hc : env.SortContract)
    (p : Pattern Clip) (hd : NoDuplicateKeys env p.clips) :
    NoDuplicateKeys env (p.sort env).clips := by
  unfold sort
  split
  · exact NoDuplicateKeys.of_perm ho (hc.perm _) hd
  · exact hd

theorem noDuplicateKeys_deserialize {env : Env Clip} (ho : env.Ordered) (hc : env.SortContract)
    (p : Pattern Clip) (xml : XmlElement)
    (hx : NoDuplicateKeys env (documentClips env xml)) :
    NoDuplicateKeys env (p.deserialize env xml).clips := by
  unfold documentClips documentRoot at hx
  unfold deserialize
  simp only []
  split
  · exact List.Pairwise.nil
  · rename_i r hr
    rw [hr] at hx
    simp only [] at hx
    apply noDuplicateKeys_sort ho hc
    split
    · rename_i h0
      rw [clips_foldl_add] at h0 ⊢
      rw [List.length_eq_zero.mp h0]
      simp [JuceArray.add, NoDuplicateKeys]
    · rw [clips_foldl_add]
      simpa [clearQuick] using hx

/-- Every operation of a run that meets `Op.KeysApart` keeps a sorted clip array free of
key-equal clips. -/
theorem noDuplicateKeys_step {env : Env Clip} (ho : env.Ordered) (hc : env.SortContract)
    (hk : env.KeyRefinesEquals) (p : Pattern Clip) (hs : Sorted env p.clips)
    (hd : NoDuplicateKeys env p.clips) (op : Op Clip) (hop : Op.KeysApart env p op) :
    NoDuplicateKeys env (p.step env op).clips := by
  cases op with
  | silentImport c =>
    simp only [step, silentImport]
    split
    · rename_i h
      refine NoDuplicateKeys.addSorted_fresh ho hs hd (not_key_of_not_contains hk ?_)
      simpa using h
    · exact hd
  | insert c =>
    simp only [step, insert, Bool.false_eq_true, if_false]
    split
    · exact hd
    · rename_i h
      refine NoDuplicateKeys.addSorted_fresh ho hs hd (not_key_of_not_contains hk ?_)
      simpa using h
  | remove c =>
    simp only [step, remove, removeBody, Bool.false_eq_true, if_false]
    split
    · exact NoDuplicateKeys.remove_index hd _
    · exact hd
  | change c n =>
    simp only [step, change, changeBody, Bool.false_eq_true, if_false]
    split
    · rename_i hge
      refine NoDuplicateKeys.addSorted_fresh ho (sorted_remove hs _) (NoDuplicateKeys.remove_index hd _) ?_
      rcases JuceArray.indexOfSorted_sound env p.clips c with h1 | ⟨i, y0, h1, h2, h3⟩
      · rw [h1] at hge; omega
      · intro y hy hz
        have hrem : JuceArray.remove p.clips (JuceArray.indexOfSorted env p.clips c) =
            p.clips.eraseIdx i := by
          simp [JuceArray.remove, h1]
        rw [hrem] at hy
        obtain ⟨j, hji, hj⟩ := List.mem_eraseIdx_iff_getElem?.mp hy
        have hymem : y ∈ p.clips := by
          obtain ⟨hlt, rfl⟩ := List.getElem?_eq_some.mp hj
          exact List.getElem_mem hlt
        have hcy := hop y hymem hz
        have h0y := ho.zero_trans (ho.zero_symm h3) hcy
        exact NoDuplicateKeys.ne_of_ne ho hd (Ne.symm hji) h2 hj h0y
    · exact hd
  | sort => exact noDuplicateKeys_sort ho hc p hd
  | deserialize xml => exact noDuplicateKeys_deserialize ho hc p xml hop
  | reset => exact List.Pairwise.nil

/-- C7, as amended: starting from the constructor, every sequence of `silentImport`, silent
`insert`, `remove` and `change`, `sort`, `deserialize` and `reset` leaves no two clips that
are equal under the key, provided that each `change` gives a new value matching no other
clip of the pattern, and that each deserialized document lists clips that differ pairwise
under the key. -/
theorem run_noDuplicateKeys {env : Env Clip} (ho : env.Ordered) (hc : env.SortContract)
    (hk : env.KeyRefinesEquals) (trackId : String) (ops : List (Op Clip))
    (hops : RunKeysApart env (new env trackId) ops) :
    NoDuplicateKeys env ((new env trackId).run env ops).clips := by
  have key : ∀ (ops : List (Op Clip)) (p : Pattern Clip), Sorted env p.clips →
      NoDuplicateKeys env p.clips → RunKeysApart env p ops →
      NoDuplicateKeys env (p.run env ops).clips := by
    intro ops
    induction ops with
    | nil => intro p _ hd _; exact hd
    | cons op ops ih =>
      intro p hs hd hr
      exact ih (p.step env op) (sorted_step ho hc p hs op)
        (noDuplicateKeys_step ho hc hk p hs hd op hr.1) hr.2
  refine key ops _ (sorted_new env trackId) ?_ hops
  simp [new, JuceArray.add, NoDuplicateKeys]

end Pattern

/-! ## Inverse laws on the clip array -/

section Inverse

variable {Clip : Type}

theorem perm_cons_eraseIdx {a : Clip} :
    ∀ (l : List Clip) (i : Nat), l[i]? = some a → l.Perm (a :: l.eraseIdx i) := by
  intro l
  induction l with
  | nil => intro i h; simp at h
  | cons x l ih =>
    intro i h
    cases i with
    | zero =>
      simp only [List.getElem?_cons_zero, Option.some.injEq] at h
      subst h
      simp
    | succ i =>
      simp only [List.getElem?_cons_succ] at h
      simp only [List.eraseIdx_cons_succ]
      exact ((ih i h).cons x).trans (List.Perm.swap a x _)

theorem getElem?_insertIdx_self (arr : List Clip) (x : Clip) {k : Nat} (hk : k ≤ arr.length) :
    (arr.insertIdx k x)[k]? = some x := by
  have hlen : k < (arr.insertIdx k x).length := by
    rw [List.length_insertIdx _ _ hk]; omega
  rw [List.getElem?_eq_getElem hlen, List.getElem_insertIdx_self arr x k hk]

/-- On a sorted array the lookup returns the index of the only element that matches. -/
theorem indexOfSorted_of_unique {env : Env Clip} (ho : env.Ordered) {arr : List Clip}
    (hs : Sorted env arr) {x y : Clip} {i : Nat} (hi : arr[i]? = some y)
    (hz : env.compareElements x y = 0)
    (huniq : ∀ j z, arr[j]? = some z → env.compareElements x z = 0 → j = i) :
    JuceArray.indexOfSorted env arr x = (i : Int) := by
  have hmem : y ∈ arr := by
    obtain ⟨hlt, rfl⟩ := List.getElem?_eq_some.mp hi
    exact List.getElem_mem hlt
  obtain ⟨j, z, h1, h2, h3⟩ := JuceArray.indexOfSorted_of_hasKey ho hs ⟨y, hmem, hz⟩
  rw [h1, huniq j z h2 h3]

/-- Two sorted arrays without key-equal clips that hold the same clips are equal. -/
theorem eq_of_perm_of_sorted_noDuplicateKeys {env : Env Clip} (ho : env.Ordered)
    {l₁ l₂ : List Clip} (hp : l₁.Perm l₂) (hs₁ : Sorted env l₁) (hs₂ : Sorted env l₂)
    (hd₁ : NoDuplicateKeys env l₁) (hd₂ : NoDuplicateKeys env l₂) : l₁ = l₂ := by
  have strict : ∀ l : List Clip, Sorted env l → NoDuplicateKeys env l →
      List.Sorted (fun a b => env.compareElements a b < 0) l := by
    intro l h1 h2
    unfold Sorted at h1
    unfold NoDuplicateKeys at h2
    refine List.Pairwise.imp ?_ (List.Pairwise.and h1 h2)
    intro a b hab
    omega
  haveI : IsAntisymm Clip (fun a b => env.compareElements a b < 0) :=
    ⟨fun a b h1 h2 => by
      have := ho.swap a b
      omega⟩
  exact List.eq_of_perm_of_sorted hp (strict _ hs₁ hd₁) (strict _ hs₂ hd₂)

/-- Looking up, in a sorted array, the clip that was just inserted at index `k` returns `k`
when no other element matches it. -/
theorem indexOfSorted_insertIdx {env : Env Clip} (ho : env.Ordered) {arr : List Clip} {x : Clip}
    {k : Nat} (hk : k ≤ arr.length) (hs : Sorted env (arr.insertIdx k x))
    (hx : ∀ y ∈ arr, env.compareElements x y ≠ 0) :
    JuceArray.indexOfSorted env (arr.insertIdx k x) x = (k : Int) := by
  refine indexOfSorted_of_unique ho hs (getElem?_insertIdx_self arr x hk) (ho.compare_self x) ?_
  intro j z hj hz
  by_contra hne
  have hmem : z ∈ (arr.insertIdx k x).eraseIdx k :=
    List.mem_eraseIdx_iff_getElem?.mpr ⟨j, hne, hj⟩
  rw [List.eraseIdx_insertIdx] at hmem
  exact hx z hmem hz

end Inverse

namespace Pattern

variable {Clip : Type}

/-- C8: for every pattern with a sorted clip array and every clip it does not contain, the
silent `insert` followed by the silent `remove` of the same clip both return true and leave
the clip array exactly as it was before the insert (same elements, same order). -/
theorem remove_insert_silent {env : Env Clip} (ho : env.Ordered) (hk : env.KeyRefinesEquals)
    (p : Pattern Clip) (clip : Clip) (hs : Sorted env p.clips)
    (h : JuceArray.contains env p.clips clip = false) :
    (p.insert env clip false).1 = true ∧
    ((p.insert env clip false).2.remove env clip false).1 = true ∧
    ((p.insert env clip false).2.remove env clip false).2.clips = p.clips := by
  have hle := JuceArray.findInsertIndexInSortedArray_le ho hs clip
  have hsorted := JuceArray.addSorted_sorted ho hs clip
  have hidx := indexOfSorted_insertIdx ho hle hsorted (not_key_of_not_contains hk h)
  simp only [insert, h, insertBody, notifyClipAdded, remove, removeBody, notifyClipRemoved,
    JuceArray.addSorted, hidx, Bool.false_eq_true, if_false]
  simp [JuceArray.remove, List.eraseIdx_insertIdx]

/-- C9, as amended: for every pattern whose clip array is sorted and free of key-equal clips,
every clip `a` stored in it and every clip `b` that matches no other clip of the pattern under
the key, the silent `change(a, b)` followed by the silent `change(b, a)` both return true and
restore the clip array exactly. -/
theorem change_back_silent {env : Env Clip} (ho : env.Ordered) (p : Pattern Clip) (a b : Clip)
    (hs : Sorted env p.clips) (hd : NoDuplicateKeys env p.clips) (ha : a ∈ p.clips)
    (hb : ∀ y ∈ p.clips, env.compareElements b y = 0 → y = a) :
    (p.change env a b false).1 = true ∧
    ((p.change env a b false).2.change env b a false).1 = true ∧
    ((p.change env a b false).2.change env b a false).2.clips = p.clips := by
  obtain ⟨i, hlt, hget⟩ := List.getElem_of_mem ha
  have hi : p.clips[i]? = some a := by rw [List.getElem?_eq_getElem hlt, hget]
  have hidx1 : JuceArray.indexOfSorted env p.clips a = (i : Int) := by
    refine indexOfSorted_of_unique ho hs hi (ho.compare_self a) ?_
    intro j z hj hz
    by_contra hne
    exact NoDuplicateKeys.ne_of_ne ho hd (Ne.symm hne) hi hj hz
  have hs0 : Sorted env (p.clips.eraseIdx i) :=
    List.Pairwise.sublist (List.eraseIdx_sublist _ _) hs
  have hd0 : NoDuplicateKeys env (p.clips.eraseIdx i) :=
    List.Pairwise.sublist (List.eraseIdx_sublist _ _) hd
  have hk1 := JuceArray.findInsertIndexInSortedArray_le ho hs0 b
  have hs1 := JuceArray.addSorted_sorted ho hs0 b
  have hb0 : ∀ y ∈ p.clips.eraseIdx i, env.compareElements b y ≠ 0 := by
    intro y hy hz
    obtain ⟨m, hmi, hm⟩ := List.mem_eraseIdx_iff_getElem?.mp hy
    have hymem : y ∈ p.clips := by
      obtain ⟨hl, rfl⟩ := List.getElem?_eq_some.mp hm
      exact List.getElem_mem hl
    have hya := hb y hymem hz
    subst hya
    exact NoDuplicateKeys.ne_of_ne ho hd hmi hm hi (ho.compare_self y)
  have hidx2 := indexOfSorted_insertIdx ho hk1 hs1 hb0
  have hk2 := JuceArray.findInsertIndexInSortedArray_le ho hs0 a
  have hs2 := JuceArray.addSorted_sorted ho hs0 a
  have hperm : (JuceArray.addSorted env (p.clips.eraseIdx i) a).Perm p.clips :=
    (List.perm_insertIdx a _ hk2).trans (perm_cons_eraseIdx p.clips i hi).symm
  have hfinal : JuceArray.addSorted env (p.clips.eraseIdx i) a = p.clips :=
    eq_of_perm_of_sorted_noDuplicateKeys ho hperm hs2 hs
      (NoDuplicateKeys.of_perm ho hperm hd) hd
  have hr1 : JuceArray.remove p.clips (i : Int) = p.clips.eraseIdx i := by
    simp [JuceArray.remove]
  simp only [change, changeBody, notifyClipChanged, hidx1, hr1, Bool.false_eq_true, if_false,
    ge_iff_le, Int.natCast_nonneg, if_true, true_and]
  simp only [JuceArray.addSorted] at hidx2 ⊢
  rw [hidx2]
  simp only [ge_iff_le, Int.natCast_nonneg, if_true, true_and]
  have hr2 : JuceArray.remove ((p.clips.eraseIdx i).insertIdx
      (JuceArray.findInsertIndexInSortedArray env (p.clips.eraseIdx i) b) b)
      ((JuceArray.findInsertIndexInSortedArray env (p.clips.eraseIdx i) b : Nat) : Int) =
      p.clips.eraseIdx i := by
    simp [JuceArray.remove, List.eraseIdx_insertIdx]
  rw [hr2]
  exact hfinal

end Pattern

namespace Pattern

open Example

/-- Witness of C6. -/
theorem run_sorted_witness :
    (clipEnv.Ordered ∧ clipEnv.SortContract) ∧
    Sorted clipEnv ((new clipEnv "track").run clipEnv
      [Op.insert clipA, Op.silentImport clipC, Op.change clipA clipB, Op.remove origin,
        Op.deserialize twice, Op.sort, Op.reset, Op.insert clipA2]).clips :=
  ⟨⟨clipEnv_ordered, clipEnv_sortContract⟩,
    run_sorted clipEnv_ordered clipEnv_sortContract "track" _⟩

/-- C7 fails as stated: after `insert(clipA)` and `change(origin, clipA)` a new pattern holds
`clipA` twice, and so does a pattern that deserialized a document listing `clipA` twice. -/
theorem run_duplicate_counterexample :
    ¬ NoDuplicateKeys clipEnv
        ((new clipEnv "track").run clipEnv [Op.insert clipA, Op.change origin clipA]).clips ∧
    ¬ NoDuplicateKeys clipEnv
        ((new clipEnv "track").run clipEnv [Op.deserialize twice]).clips := by
  constructor <;> decide

/-- Witness of C7 as amended. -/
theorem run_noDuplicateKeys_witness :
    (clipEnv.Ordered ∧ clipEnv.SortContract ∧ clipEnv.KeyRefinesEquals ∧
      RunKeysApart clipEnv (new clipEnv "track")
        [Op.insert clipA, Op.change origin clipB, Op.deserialize listed, Op.remove clipC]) ∧
    NoDuplicateKeys clipEnv ((new clipEnv "track").run clipEnv
      [Op.insert clipA, Op.change origin clipB, Op.deserialize listed, Op.remove clipC]).clips :=
  have hops : RunKeysApart clipEnv (new clipEnv "track")
      [Op.insert clipA, Op.change origin clipB, Op.deserialize listed, Op.remove clipC] :=
    ⟨trivial, by decide, by decide, trivial, trivial⟩
  ⟨⟨clipEnv_ordered, clipEnv_sortContract, clipEnv_keyRefinesEquals, hops⟩,
    run_noDuplicateKeys clipEnv_ordered clipEnv_sortContract clipEnv_keyRefinesEquals "track" _
      hops⟩

/-- Witness of C8. -/
theorem remove_insert_silent_witness :
    (clipEnv.Ordered ∧ clipEnv.KeyRefinesEquals ∧ Sorted clipEnv three.clips ∧
      JuceArray.contains clipEnv three.clips clipC = false) ∧
    ((three.insert clipEnv clipC false).1 = true ∧
      ((three.insert clipEnv clipC false).2.remove clipEnv clipC false).1 = true ∧
      ((three.insert clipEnv clipC false).2.remove clipEnv clipC false).2.clips = three.clips) :=
  ⟨⟨clipEnv_ordered, clipEnv_keyRefinesEquals, by decide, by decide⟩,
    remove_insert_silent clipEnv_ordered clipEnv_keyRefinesEquals three clipC (by decide)
      (by decide)⟩

/-- C9 fails as stated.  In the sorted, duplicate-free pattern `three`: changing `clipB` into
`clipA2`, which is key-equal to the stored `clipA`, and back removes `clipA` and keeps
`clipA2`; and changing `clipA2`, which is found because it matches the stored `clipA`, into
`clipC` and back leaves `clipA2` where `clipA` was. -/
theorem change_back_counterexample :
    ¬ (Sorted clipEnv three.clips ∧ NoDuplicateKeys clipEnv three.clips ∧
        HasKey clipEnv three.clips clipB →
        (three.change clipEnv clipB clipA2 false).1 = true ∧
        ((three.change clipEnv clipB clipA2 false).2.change clipEnv clipA2 clipB false).1 = true ∧
        ((three.change clipEnv clipB clipA2 false).2.change clipEnv clipA2 clipB false).2.clips =
          three.clips) ∧
    ¬ (Sorted clipEnv three.clips ∧ NoDuplicateKeys clipEnv three.clips ∧
        HasKey clipEnv three.clips clipA2 →
        (three.change clipEnv clipA2 clipC false).1 = true ∧
        ((three.change clipEnv clipA2 clipC false).2.change clipEnv clipC clipA2 false).1 = true ∧
        ((three.change clipEnv clipA2 clipC false).2.change clipEnv clipC clipA2 false).2.clips =
          three.clips) := by
  constructor
  · intro h
    have h1 := (h ⟨by decide, by decide, by decide⟩).2.2
    revert h1
    decide
  · intro h
    have h1 := (h ⟨by decide, by decide, by decide⟩).2.2
    revert h1
    decide

/-- Witness of C9 as amended. -/
theorem change_back_silent_witness :
    (clipEnv.Ordered ∧ Sorted clipEnv three.clips ∧ NoDuplicateKeys clipEnv three.clips ∧
      clipB ∈ three.clips ∧
      ∀ y ∈ three.clips, clipEnv.compareElements clipC y = 0 → y = clipB) ∧
    ((three.change clipEnv clipB clipC false).1 = true ∧
      ((three.change clipEnv clipB clipC false).2.change clipEnv clipC clipB false).1 = true ∧
      ((three.change clipEnv clipB clipC false).2.change clipEnv clipC clipB false).2.clips =
        three.clips) :=
  ⟨⟨clipEnv_ordered, by decide, by decide, by decide, by decide⟩,
    change_back_silent clipEnv_ordered three clipB clipC (by decide) (by decide) (by decide)
      (by decide)⟩

end Pattern

/-! ## Undo of an annotation action against perform of its opposite -/

namespace Annotations

variable {Project Sequence Event : Type}

/-- C10: for every project state, track id `t`, event `e` and event array `es`, undoing the
insert action of `(t, e)` returns and does what performing the remove action of `(t, e)` does,
undoing the remove action what performing the insert action does, and likewise for the group
insert and group remove actions over `es`. -/
theorem undo_eq_perform_opposite (ops : ProjectOps Project Sequence Event) (project : Project)
    (t : String) (e : Event) (es : List Event) :
    (AnnotationEventInsertAction.mk t e).undo ops project =
      (AnnotationEventRemoveAction.mk t e).perform ops project ∧
    (AnnotationEventRemoveAction.mk t e).undo ops project =
      (AnnotationEventInsertAction.mk t e).perform ops project ∧
    (AnnotationEventsGroupInsertAction.new t es).undo ops project =
      (AnnotationEventsGroupRemoveAction.new t es).perform ops project ∧
    (AnnotationEventsGroupRemoveAction.new t es).undo ops project =
      (AnnotationEventsGroupInsertAction.new t es).perform ops project :=
  ⟨rfl, rfl, rfl, rfl⟩

end Annotations

/-! ## Undo, perform and coalescing of the change actions -/

namespace Annotations

variable {Project Sequence Event : Type}

/-- C11: for every project state, track id `t`, events `a`, `b` and arrays `A`, `B`, undoing
the change action of `(t, a, b)` returns and does what performing the change action of
`(t, b, a)` does, and undoing the group change action of `(t, A, B)` what performing the group
change action of `(t, B, A)` does. -/
theorem change_undo_eq_perform_swapped (ops : ProjectOps Project Sequence Event)
    (project : Project) (t : String) (a b : Event) (A B : List Event) :
    (AnnotationEventChangeAction.mk t a b).undo ops project =
      (AnnotationEventChangeAction.mk t b a).perform ops project ∧
    (AnnotationEventsGroupChangeAction.new t A B).undo ops project =
      (AnnotationEventsGroupChangeAction.new t B A).perform ops project :=
  ⟨rfl, rfl⟩

/-- C12: when the track id resolves to no sequence, `perform` and `undo` of each of the six
annotation actions return false and leave the project, hence every sequence of it, as it
was. -/
theorem perform_undo_of_unresolved (ops : ProjectOps Project Sequence Event) (project : Project)
    (t : String) (e a b : Event) (es A B : List Event)
    (h : ops.findSequenceByTrackId project t = none) :
    ((AnnotationEventInsertAction.mk t e).perform ops project = (false, project) ∧
      (AnnotationEventInsertAction.mk t e).undo ops project = (false, project)) ∧
    ((AnnotationEventRemoveAction.mk t e).perform ops project = (false, project) ∧
      (AnnotationEventRemoveAction.mk t e).undo ops project = (false, project)) ∧
    ((AnnotationEventChangeAction.mk t a b).perform ops project = (false, project) ∧
      (AnnotationEventChangeAction.mk t a b).undo ops project = (false, project)) ∧
    ((AnnotationEventsGroupInsertAction.new t es).perform ops project = (false, project) ∧
      (AnnotationEventsGroupInsertAction.new t es).undo ops project = (false, project)) ∧
    ((AnnotationEventsGroupRemoveAction.new t es).perform ops project = (false, project) ∧
      (AnnotationEventsGroupRemoveAction.new t es).undo ops project = (false, project)) ∧
    ((AnnotationEventsGroupChangeAction.new t A B).perform ops project = (false, project) ∧
      (AnnotationEventsGroupChangeAction.new t A B).undo ops project = (false, project)) := by
  simp [AnnotationEventInsertAction.perform, AnnotationEventInsertAction.undo,
    AnnotationEventRemoveAction.perform, AnnotationEventRemoveAction.undo,
    AnnotationEventChangeAction.perform, AnnotationEventChangeAction.undo,
    AnnotationEventsGroupInsertAction.perform, AnnotationEventsGroupInsertAction.undo,
    AnnotationEventsGroupRemoveAction.perform, AnnotationEventsGroupRemoveAction.undo,
    AnnotationEventsGroupChangeAction.perform, AnnotationEventsGroupChangeAction.undo,
    AnnotationEventsGroupInsertAction.new, AnnotationEventsGroupRemoveAction.new,
    AnnotationEventsGroupChangeAction.new, h]

/-- C13: a change action `(t, B, C)` whose track resolves, followed by a change action
`(t, C', D)` on the same track with the id of `B` equal to the id of `D`, coalesces into a new
change action with track id `t`, `eventBefore = B` and `eventAfter = D`. -/
theorem change_createCoalescedAction (ops : ProjectOps Project Sequence Event)
    (ev : EventEnv Event) (project : Project) (t : String) (B C C' D : Event)
    (hres : (ops.findSequenceByTrackId project t).isSome = true)
    (hid : ev.getId B = ev.getId D) :
    (AnnotationEventChangeAction.mk t B C).createCoalescedAction ops ev project
        (AnnotationUndoAction.change (AnnotationEventChangeAction.mk t C' D)) =
      some (AnnotationUndoAction.change (AnnotationEventChangeAction.mk t B D)) := by
  obtain ⟨s, hs⟩ := Option.isSome_iff_exists.mp hres
  simp [AnnotationEventChangeAction.createCoalescedAction, hs, hid]

/-- C14: `createCoalescedAction` of a change action returns an action exactly when the
action's track resolves, the next action is a single change action, that action has the same
track id, and the id of this `eventBefore` is the id of the next `eventAfter`; it returns the
null pointer exactly when the track does not resolve, or the next action is not a single
change action, or it is one with another track id or with another id of `eventAfter`. -/
theorem change_createCoalescedAction_iff (ops : ProjectOps Project Sequence Event)
    (ev : EventEnv Event) (action : AnnotationEventChangeAction Event) (project : Project)
    (nextAction : AnnotationUndoAction Event) :
    ((action.createCoalescedAction ops ev project nextAction).isSome = true ↔
      (ops.findSequenceByTrackId project action.trackId).isSome = true ∧
      ∃ nextChanger, nextAction = AnnotationUndoAction.change nextChanger ∧
        nextChanger.trackId = action.trackId ∧
        ev.getId action.eventBefore = ev.getId nextChanger.eventAfter) ∧
    (action.createCoalescedAction ops ev project nextAction = none ↔
      ops.findSequenceByTrackId project action.trackId = none ∨
      (∀ nextChanger, nextAction ≠ AnnotationUndoAction.change nextChanger) ∨
      ∃ nextChanger, nextAction = AnnotationUndoAction.change nextChanger ∧
        (nextChanger.trackId ≠ action.trackId ∨
          ev.getId action.eventBefore ≠ ev.getId nextChanger.eventAfter)) := by
  unfold AnnotationEventChangeAction.createCoalescedAction
  cases hf : ops.findSequenceByTrackId project action.trackId with
  | none => simp
  | some s =>
    cases nextAction with
    | change nextChanger =>
      by_cases h1 : ev.getId action.eventBefore = ev.getId nextChanger.eventAfter
      · by_cases h2 : action.trackId = nextChanger.trackId
        · simp [h1, h2]
        · have h3 : ¬ nextChanger.trackId = action.trackId := fun h => h2 h.symm
          simp [h1, h2, h3]
      · simp [h1]
    | insert a => simp
    | remove a => simp
    | groupInsert a => simp
    | groupRemove a => simp
    | groupChange a => simp
    | other => simp

/-- C15: a group change action `(t1, X, Y)` whose track resolves, followed by a group change
action `(t2, Y', Z)`, coalesces into the group change action `(t1, X, Z)` when `t1 = t2`, `X`
and `Z` have the same length and element 0 of `X` has the id of element 0 of `Z`; it returns
the null pointer when the track ids differ, the lengths differ or those ids differ. -/
theorem groupChange_createCoalescedAction (ops : ProjectOps Project Sequence Event)
    (ev : EventEnv Event) (project : Project) (t1 t2 : String) (X Y Y' Z : List Event)
    (hres : (ops.findSequenceByTrackId project t1).isSome = true) :
    (t1 = t2 ∧ X.length = Z.length ∧ ev.getId (arrayAt ev X 0) = ev.getId (arrayAt ev Z 0) →
      (AnnotationEventsGroupChangeAction.new t1 X Y).createCoalescedAction ops ev project
          (AnnotationUndoAction.groupChange (AnnotationEventsGroupChangeAction.new t2 Y' Z)) =
        some (AnnotationUndoAction.groupChange (AnnotationEventsGroupChangeAction.new t1 X Z))) ∧
    (t1 ≠ t2 ∨ X.length ≠ Z.length ∨ ev.getId (arrayAt ev X 0) ≠ ev.getId (arrayAt ev Z 0) →
      (AnnotationEventsGroupChangeAction.new t1 X Y).createCoalescedAction ops ev project
          (AnnotationUndoAction.groupChange (AnnotationEventsGroupChangeAction.new t2 Y' Z)) =
        none) := by
  obtain ⟨s, hs⟩ := Option.isSome_iff_exists.mp hres
  constructor
  · rintro ⟨h1, h2, h3⟩
    subst h1
    simp [AnnotationEventsGroupChangeAction.createCoalescedAction,
      AnnotationEventsGroupChangeAction.new, hs, h2, h3]
  · intro h
    simp only [AnnotationEventsGroupChangeAction.createCoalescedAction,
      AnnotationEventsGroupChangeAction.new, hs, List.nil_append]
    by_cases h1 : t1 = t2
    · by_cases h2 : X.length = Z.length
      · have h3 : ev.getId (arrayAt ev X 0) ≠ ev.getId (arrayAt ev Z 0) := by
          rcases h with h | h | h
          · exact absurd h1 h
          · exact absurd h2 h
          · exact h
        simp [h1, h3]
      · simp [h1, h2]
    · have h1' : ¬ t2 = t1 := fun h => h1 h.symm
      simp [h1']

end Annotations

namespace Annotations

open Example

/-- Witness of C12. -/
theorem perform_undo_of_unresolved_witness :
    projectOps.findSequenceByTrackId project "missing" = none ∧
    (((AnnotationEventInsertAction.mk "missing" noteC).perform projectOps project =
        (false, project) ∧
      (AnnotationEventInsertAction.mk "missing" noteC).undo projectOps project =
        (false, project)) ∧
    ((AnnotationEventRemoveAction.mk "missing" noteC).perform projectOps project =
        (false, project) ∧
      (AnnotationEventRemoveAction.mk "missing" noteC).undo projectOps project =
        (false, project)) ∧
    ((AnnotationEventChangeAction.mk "missing" noteA noteA1).perform projectOps project =
        (false, project) ∧
      (AnnotationEventChangeAction.mk "missing" noteA noteA1).undo projectOps project =
        (false, project)) ∧
    ((AnnotationEventsGroupInsertAction.new "missing" [noteC]).perform projectOps project =
        (false, project) ∧
      (AnnotationEventsGroupInsertAction.new "missing" [noteC]).undo projectOps project =
        (false, project)) ∧
    ((AnnotationEventsGroupRemoveAction.new "missing" [noteC]).perform projectOps project =
        (false, project) ∧
      (AnnotationEventsGroupRemoveAction.new "missing" [noteC]).undo projectOps project =
        (false, project)) ∧
    ((AnnotationEventsGroupChangeAction.new "missing" [noteA] [noteA1]).perform projectOps
        project = (false, project) ∧
      (AnnotationEventsGroupChangeAction.new "missing" [noteA] [noteA1]).undo projectOps
        project = (false, project))) :=
  ⟨by decide,
    perform_undo_of_unresolved projectOps project "missing" noteC noteA noteA1 [noteC] [noteA]
      [noteA1] (by decide)⟩

/-- Witness of C13. -/
theorem change_createCoalescedAction_witness :
    ((projectOps.findSequenceByTrackId project "annotations").isSome = true ∧
      eventEnv.getId noteA = eventEnv.getId noteA2) ∧
    (AnnotationEventChangeAction.mk "annotations" noteA noteA1).createCoalescedAction projectOps
        eventEnv project
        (AnnotationUndoAction.change (AnnotationEventChangeAction.mk "annotations" noteA1 noteA2)) =
      some (AnnotationUndoAction.change
        (AnnotationEventChangeAction.mk "annotations" noteA noteA2)) :=
  ⟨⟨by decide, by decide⟩,
    change_createCoalescedAction projectOps eventEnv project "annotations" noteA noteA1 noteA1
      noteA2 (by decide) (by decide)⟩

/-- Witness of C15. -/
theorem groupChange_createCoalescedAction_witness :
    ((projectOps.findSequenceByTrackId project "annotations").isSome = true ∧
      ("annotations" = "annotations" ∧ [noteA, noteB].length = [noteA2, noteB1].length ∧
        eventEnv.getId (arrayAt eventEnv [noteA, noteB] 0) =
          eventEnv.getId (arrayAt eventEnv [noteA2, noteB1] 0)) ∧
      ("annotations" ≠ "other" ∨ [noteA, noteB].length ≠ [noteA2, noteB1].length ∨
        eventEnv.getId (arrayAt eventEnv [noteA, noteB] 0) ≠
          eventEnv.getId (arrayAt eventEnv [noteA2, noteB1] 0))) ∧
    (AnnotationEventsGroupChangeAction.new "annotations" [noteA, noteB]
          [noteA1, noteB]).createCoalescedAction projectOps eventEnv project
        (AnnotationUndoAction.groupChange
          (AnnotationEventsGroupChangeAction.new "annotations" [noteA1, noteB]
            [noteA2, noteB1])) =
      some (AnnotationUndoAction.groupChange
        (AnnotationEventsGroupChangeAction.new "annotations" [noteA, noteB] [noteA2, noteB1])) ∧
    (AnnotationEventsGroupChangeAction.new "annotations" [noteA, noteB]
          [noteA1, noteB]).createCoalescedAction projectOps eventEnv project
        (AnnotationUndoAction.groupChange
          (AnnotationEventsGroupChangeAction.new "other" [noteA1, noteB] [noteA2, noteB1])) =
      none :=
  ⟨⟨by decide, by decide, by decide⟩,
    (groupChange_createCoalescedAction projectOps eventEnv project "annotations" "annotations"
      [noteA, noteB] [noteA1, noteB] [noteA1, noteB] [noteA2, noteB1] (by decide)).1
      (by decide),
    (groupChange_createCoalescedAction projectOps eventEnv project "annotations" "other"
      [noteA, noteB] [noteA1, noteB] [noteA1, noteB] [noteA2, noteB1] (by decide)).2
      (by decide)⟩

end Annotations

/-! ## Round trips through serialize and deserialize -/

namespace XmlElement

theorem getStringAttribute_setAttribute_new (tagName name value : String) :
    ((XmlElement.new tagName).setAttribute name value).getStringAttribute name = value := by
  simp [XmlElement.new, setAttribute, setAttributeIn, getStringAttribute]

theorem getStringAttribute_prependChildElement (xml child : XmlElement) (name : String) :
    (xml.prependChildElement child).getStringAttribute name = xml.getStringAttribute name := by
  cases xml with
  | node t a cs => rfl

theorem children_prependChildElement (xml child : XmlElement) :
    (xml.prependChildElement child).children = child :: xml.children := by
  cases xml with
  | node t a cs => rfl

theorem getTagName_prependChildElement (xml child : XmlElement) :
    (xml.prependChildElement child).getTagName = xml.getTagName := by
  cases xml with
  | node t a cs => rfl

end XmlElement

namespace Annotations

variable {Event : Type}

theorem prependEvents_eq (ev : EventEnv Event) (events : List Event) :
    ∀ (t : String) (a : List (String × String)) (cs : List XmlElement),
      prependEvents ev (XmlElement.node t a cs) events =
        XmlElement.node t a ((events.map ev.serialize).reverse ++ cs) := by
  induction events with
  | nil => intro t a cs; rfl
  | cons e es ih =>
    intro t a cs
    simp only [prependEvents, List.foldl_cons, XmlElement.prependChildElement] at ih ⊢
    rw [ih]
    simp

theorem readEvents_eq (ev : EventEnv Event) (xml : XmlElement) (events : List Event) :
    readEvents ev xml events = events ++ xml.children.map (ev.deserialize ev.create) := by
  unfold readEvents
  generalize xml.children = cs
  induction cs generalizing events with
  | nil => simp
  | cons c cs ih =>
    simp only [List.foldl_cons, List.map_cons]
    rw [ih]
    simp [JuceArray.add]

theorem map_deserialize_reverse (ev : EventEnv Event) (events : List Event)
    (h : ∀ e ∈ events, ev.deserialize ev.create (ev.serialize e) = e) :
    ((events.map ev.serialize).reverse).map (ev.deserialize ev.create) = events.reverse := by
  rw [List.map_reverse, List.map_map]
  congr 1
  induction events with
  | nil => rfl
  | cons e es ih =>
    simp only [List.map_cons, Function.comp_apply]
    rw [h e (List.mem_cons_self _ _), ih (fun x hx => h x (List.mem_cons_of_mem _ hx))]

/-- What a group array becomes on the way through `serialize` and `deserialize`: the same
events in reverse order. -/
theorem readEvents_prependEvents (ev : EventEnv Event) (t : String) (a : List (String × String))
    (events : List Event)
    (h : ∀ e ∈ events, ev.deserialize ev.create (ev.serialize e) = e) :
    readEvents ev (prependEvents ev (XmlElement.node t a []) events) [] = events.reverse := by
  rw [prependEvents_eq, readEvents_eq]
  simp only [XmlElement.children, List.append_nil, List.nil_append]
  exact map_deserialize_reverse ev events h

/-- C16, as amended: `deserialize` after `serialize` gives a group insert action, a group
remove action and a group change action the same track id and the same events in reverse
order (both arrays of a group change action alike), when each of the events round-trips and
the keys of the two groups differ. -/
theorem group_deserialize_serialize (ev : EventEnv Event)
    (hk : ev.keys.groupBefore ≠ ev.keys.groupAfter) (t : String) (es bs as : List Event)
    (i0 : AnnotationEventsGroupInsertAction Event) (r0 : AnnotationEventsGroupRemoveAction Event)
    (c0 : AnnotationEventsGroupChangeAction Event)
    (hes : ∀ e ∈ es, ev.deserialize ev.create (ev.serialize e) = e)
    (hbs : ∀ e ∈ bs, ev.deserialize ev.create (ev.serialize e) = e)
    (has : ∀ e ∈ as, ev.deserialize ev.create (ev.serialize e) = e) :
    i0.deserialize ev ((AnnotationEventsGroupInsertAction.new t es).serialize ev) =
      AnnotationEventsGroupInsertAction.new t es.reverse ∧
    r0.deserialize ev ((AnnotationEventsGroupRemoveAction.new t es).serialize ev) =
      AnnotationEventsGroupRemoveAction.new t es.reverse ∧
    c0.deserialize ev ((AnnotationEventsGroupChangeAction.new t bs as).serialize ev) =
      some (AnnotationEventsGroupChangeAction.new t bs.reverse as.reverse) := by
  refine ⟨?_, ?_, ?_⟩
  · simp only [AnnotationEventsGroupInsertAction.deserialize,
      AnnotationEventsGroupInsertAction.serialize, AnnotationEventsGroupInsertAction.new,
      AnnotationEventsGroupInsertAction.reset, XmlElement.new, XmlElement.setAttribute,
      XmlElement.setAttributeIn]
    rw [readEvents_prependEvents ev _ _ es hes, prependEvents_eq]
    simp [XmlElement.getStringAttribute]
  · simp only [AnnotationEventsGroupRemoveAction.deserialize,
      AnnotationEventsGroupRemoveAction.serialize, AnnotationEventsGroupRemoveAction.new,
      AnnotationEventsGroupRemoveAction.reset, XmlElement.new, XmlElement.setAttribute,
      XmlElement.setAttributeIn]
    rw [readEvents_prependEvents ev _ _ es hes, prependEvents_eq]
    simp [XmlElement.getStringAttribute]
  · have hk' : (ev.keys.groupAfter == ev.keys.groupBefore) = false :=
      beq_eq_false_iff_ne.mpr (fun h => hk h.symm)
    simp only [AnnotationEventsGroupChangeAction.deserialize,
      AnnotationEventsGroupChangeAction.serialize, AnnotationEventsGroupChangeAction.new,
      AnnotationEventsGroupChangeAction.reset, XmlElement.new, XmlElement.setAttribute,
      XmlElement.setAttributeIn, List.nil_append, prependEvents_eq,
      XmlElement.prependChildElement, XmlElement.getChildByName, XmlElement.children,
      XmlElement.getTagName, List.append_nil]
    simp only [List.find?, XmlElement.getTagName, beq_self_eq_true, hk']
    simp only [readEvents_eq, XmlElement.children, List.nil_append,
      map_deserialize_reverse ev bs hbs, map_deserialize_reverse ev as has]
    simp [XmlElement.getStringAttribute]

end Annotations

namespace Annotations

variable {Event : Type}

/-- C17: `deserialize` after `serialize` gives an insert action, a remove action and a change
action the same track id and the same payload, the change action its `eventBefore` and its
`eventAfter` each in its own place, when each of the events round-trips and the keys of the
two children of a change action differ. -/
theorem single_deserialize_serialize (ev : EventEnv Event)
    (hk : ev.keys.annotationBefore ≠ ev.keys.annotationAfter) (t : String) (e b a : Event)
    (i0 : AnnotationEventInsertAction Event) (r0 : AnnotationEventRemoveAction Event)
    (c0 : AnnotationEventChangeAction Event)
    (hi : ev.deserialize i0.event (ev.serialize e) = e)
    (hr : ev.deserialize r0.event (ev.serialize e) = e)
    (hb : ev.deserialize c0.eventBefore (ev.serialize b) = b)
    (ha : ev.deserialize c0.eventAfter (ev.serialize a) = a) :
    i0.deserialize ev ((AnnotationEventInsertAction.mk t e).serialize ev) =
      some (AnnotationEventInsertAction.mk t e) ∧
    r0.deserialize ev ((AnnotationEventRemoveAction.mk t e).serialize ev) =
      some (AnnotationEventRemoveAction.mk t e) ∧
    c0.deserialize ev ((AnnotationEventChangeAction.mk t b a).serialize ev) =
      some (AnnotationEventChangeAction.mk t b a) := by
  refine ⟨?_, ?_, ?_⟩
  · simp [AnnotationEventInsertAction.deserialize, AnnotationEventInsertAction.serialize,
      XmlElement.new, XmlElement.setAttribute, XmlElement.setAttributeIn,
      XmlElement.prependChildElement, XmlElement.getFirstChildElement, XmlElement.children,
      XmlElement.getStringAttribute, hi]
  · simp [AnnotationEventRemoveAction.deserialize, AnnotationEventRemoveAction.serialize,
      XmlElement.new, XmlElement.setAttribute, XmlElement.setAttributeIn,
      XmlElement.prependChildElement, XmlElement.getFirstChildElement, XmlElement.children,
      XmlElement.getStringAttribute, hr]
  · have hk' : (ev.keys.annotationAfter == ev.keys.annotationBefore) = false :=
      beq_eq_false_iff_ne.mpr (fun h => hk h.symm)
    simp only [AnnotationEventChangeAction.deserialize, AnnotationEventChangeAction.serialize,
      XmlElement.new, XmlElement.setAttribute, XmlElement.setAttributeIn,
      XmlElement.prependChildElement, XmlElement.getChildByName, XmlElement.children,
      XmlElement.getFirstChildElement]
    simp only [List.find?, XmlElement.getTagName, beq_self_eq_true, hk', XmlElement.children,
      List.head?_cons, hb, ha]
    simp [XmlElement.getStringAttribute]

/-- C20 is not met by the code.  Given an element without any child, `deserialize` of an
insert, a remove, a change and a group change action applies `*` or `->` to a null pointer:
it has no result. -/
theorem deserialize_of_no_child (ev : EventEnv Event) (i0 : AnnotationEventInsertAction Event)
    (r0 : AnnotationEventRemoveAction Event) (c0 : AnnotationEventChangeAction Event)
    (g0 : AnnotationEventsGroupChangeAction Event) (tagName : String)
    (attributes : List (String × String)) :
    i0.deserialize ev (XmlElement.node tagName attributes []) = none ∧
    r0.deserialize ev (XmlElement.node tagName attributes []) = none ∧
    c0.deserialize ev (XmlElement.node tagName attributes []) = none ∧
    g0.deserialize ev (XmlElement.node tagName attributes []) = none := by
  simp [AnnotationEventInsertAction.deserialize, AnnotationEventRemoveAction.deserialize,
    AnnotationEventChangeAction.deserialize, AnnotationEventsGroupChangeAction.deserialize,
    XmlElement.getFirstChildElement, XmlElement.getChildByName, XmlElement.children]

open Example

/-- C16 fails as stated: the events `noteA`, `noteB` round-trip, yet a group insert action
over `[noteA, noteB]` comes back from `serialize` and `deserialize` with `[noteB, noteA]`. -/
theorem group_roundtrip_counterexample :
    ¬ ((∀ e ∈ [noteA, noteB],
          eventEnv.deserialize eventEnv.create (eventEnv.serialize e) = e) →
        ((AnnotationEventsGroupInsertAction.new "" []).deserialize eventEnv
            ((AnnotationEventsGroupInsertAction.new "annotations" [noteA, noteB]).serialize
              eventEnv)).trackId = "annotations" ∧
        ((AnnotationEventsGroupInsertAction.new "" []).deserialize eventEnv
            ((AnnotationEventsGroupInsertAction.new "annotations" [noteA, noteB]).serialize
              eventEnv)).annotations = [noteA, noteB]) := by
  intro h
  have h1 := (h (by decide)).2
  revert h1
  decide

/-- Witness of C16 as amended. -/
theorem group_deserialize_serialize_witness :
    (eventEnv.keys.groupBefore ≠ eventEnv.keys.groupAfter ∧
      (∀ e ∈ [noteA, noteB, noteC],
        eventEnv.deserialize eventEnv.create (eventEnv.serialize e) = e) ∧
      (∀ e ∈ [noteA, noteB], eventEnv.deserialize eventEnv.create (eventEnv.serialize e) = e) ∧
      (∀ e ∈ [noteA1, noteB1],
        eventEnv.deserialize eventEnv.create (eventEnv.serialize e) = e)) ∧
    ((AnnotationEventsGroupInsertAction.new "" []).deserialize eventEnv
        ((AnnotationEventsGroupInsertAction.new "annotations" [noteA, noteB, noteC]).serialize
          eventEnv) =
      AnnotationEventsGroupInsertAction.new "annotations" [noteA, noteB, noteC].reverse ∧
    (AnnotationEventsGroupRemoveAction.new "" []).deserialize eventEnv
        ((AnnotationEventsGroupRemoveAction.new "annotations" [noteA, noteB, noteC]).serialize
          eventEnv) =
      AnnotationEventsGroupRemoveAction.new "annotations" [noteA, noteB, noteC].reverse ∧
    (AnnotationEventsGroupChangeAction.new "" [] []).deserialize eventEnv
        ((AnnotationEventsGroupChangeAction.new "annotations" [noteA, noteB]
          [noteA1, noteB1]).serialize eventEnv) =
      some (AnnotationEventsGroupChangeAction.new "annotations" [noteA, noteB].reverse
        [noteA1, noteB1].reverse)) :=
  ⟨⟨by decide, by decide, by decide, by decide⟩,
    group_deserialize_serialize eventEnv (by decide) "annotations" [noteA, noteB, noteC]
      [noteA, noteB] [noteA1, noteB1] _ _ _ (by decide) (by decide) (by decide)⟩

/-- Witness of C17. -/
theorem single_deserialize_serialize_witness :
    (eventEnv.keys.annotationBefore ≠ eventEnv.keys.annotationAfter ∧
      eventEnv.deserialize noteC (eventEnv.serialize noteA) = noteA ∧
      eventEnv.deserialize noteC (eventEnv.serialize noteA1) = noteA1) ∧
    ((AnnotationEventInsertAction.mk "" noteC).deserialize eventEnv
        ((AnnotationEventInsertAction.mk "annotations" noteA).serialize eventEnv) =
      some (AnnotationEventInsertAction.mk "annotations" noteA) ∧
    (AnnotationEventRemoveAction.mk "" noteC).deserialize eventEnv
        ((AnnotationEventRemoveAction.mk "annotations" noteA).serialize eventEnv) =
      some (AnnotationEventRemoveAction.mk "annotations" noteA) ∧
    (AnnotationEventChangeAction.mk "" noteC noteC).deserialize eventEnv
        ((AnnotationEventChangeAction.mk "annotations" noteA noteA1).serialize eventEnv) =
      some (AnnotationEventChangeAction.mk "annotations" noteA noteA1)) :=
  ⟨⟨by decide, by decide, by decide⟩,
    single_deserialize_serialize eventEnv (by decide) "annotations" noteA noteA noteA1
      (AnnotationEventInsertAction.mk "" noteC) (AnnotationEventRemoveAction.mk "" noteC)
      (AnnotationEventChangeAction.mk "" noteC noteC) (by decide) (by decide) (by decide)
      (by decide)⟩

end Annotations

/-! ## Deserializing a pattern -/

namespace Pattern

variable {Clip : Type}

theorem foldl_prependChildElement (env : Env Clip) (clips : List Clip) :
    ∀ (t : String) (a : List (String × String)) (cs : List XmlElement),
      clips.foldl (fun xml clip => xml.prependChildElement (env.serialize clip))
          (XmlElement.node t a cs) =
        XmlElement.node t a ((clips.map env.serialize).reverse ++ cs) := by
  induction clips with
  | nil => intro t a cs; rfl
  | cons c clips ih =>
    intro t a cs
    simp only [List.foldl_cons, XmlElement.prependChildElement] at ih ⊢
    rw [ih]
    simp

/-- The document `serialize` writes: a pattern element whose children are the serialized
clips, last clip first. -/
theorem serialize_eq (env : Env Clip) (p : Pattern Clip) :
    p.serialize env = XmlElement.node env.patternKey [] (p.clips.map env.serialize).reverse := by
  unfold serialize XmlElement.new
  rw [foldl_prependChildElement]
  simp

/-- The clip array `deserialize` leaves when the document has a pattern element: the sorted
clips of that element, or the sorted single clip `Clip(this)` when it lists none. -/
theorem clips_deserialize (env : Env Clip) (p : Pattern Clip) (xml r : XmlElement)
    (hroot : documentRoot env xml = some r) :
    (p.deserialize env xml).clips =
      env.stdSort
        (if ((r.childrenWithTagName env.clipKey).map env.deserialize).length = 0 then
          [env.create]
        else (r.childrenWithTagName env.clipKey).map env.deserialize) := by
  unfold documentRoot at hroot
  unfold deserialize
  simp only []
  split
  · rename_i hr
    rw [hr] at hroot
    exact Option.noConfusion hroot
  · rename_i r' hr
    rw [hr] at hroot
    have hrr : r' = r := Option.some.inj hroot
    subst hrr
    simp only [notifyPatternChanged, clips_foldl_add, clearQuick, List.nil_append]
    by_cases hlen : ((r'.childrenWithTagName env.clipKey).map env.deserialize).length = 0
    · have hnil := List.length_eq_zero.mp hlen
      simp [hnil, sort, JuceArray.add, JuceArray.sort]
    · have hpos : ((r'.childrenWithTagName env.clipKey).map env.deserialize).length > 0 :=
        Nat.pos_of_ne_zero hlen
      simp only [hlen, if_false, sort, clips_foldl_add, clearQuick, List.nil_append, hpos,
        if_true, JuceArray.sort]

/-- C19: whatever the pattern held before, deserializing a document that is tagged as a
pattern, or whose first pattern child is taken instead, and that lists no clip there, leaves
the pattern with exactly one clip, `Clip(this)`. -/
theorem deserialize_without_clips {env : Env Clip} (hc : env.SortContract) (p : Pattern Clip)
    (xml r : XmlElement) (hroot : documentRoot env xml = some r)
    (hnone : r.childrenWithTagName env.clipKey = []) :
    (p.deserialize env xml).clips = [env.create] := by
  rw [clips_deserialize env p xml r hroot, hnone]
  simp only [List.map_nil, List.length_nil, if_true]
  exact List.perm_singleton.mp (hc.perm [env.create])

/-- The clip array after `serialize` and `deserialize`: the sorted reversed array, or the
sorted single clip `Clip(this)` when the array was empty. -/
theorem clips_deserialize_serialize (env : Env Clip) (p q : Pattern Clip)
    (hrt : ∀ c ∈ p.clips, env.deserialize (env.serialize c) = c ∧
      (env.serialize c).getTagName = env.clipKey) :
    (q.deserialize env (p.serialize env)).clips =
      env.stdSort (if p.clips.length = 0 then [env.create] else p.clips.reverse) := by
  have hroot : documentRoot env (p.serialize env) = some (p.serialize env) := by
    simp [documentRoot, serialize_eq, XmlElement.getTagName]
  rw [clips_deserialize env q _ _ hroot]
  have hall : ∀ l : List Clip, (∀ c ∈ l, env.deserialize (env.serialize c) = c ∧
      (env.serialize c).getTagName = env.clipKey) →
      ((l.map env.serialize).filter (fun c => c.getTagName == env.clipKey)).map env.deserialize
        = l := by
    intro l
    induction l with
    | nil => intro _; rfl
    | cons c l ih =>
      intro h
      have hc := h c (List.mem_cons_self _ _)
      simp only [List.map_cons, List.filter_cons, hc.2, beq_self_eq_true, if_true, hc.1]
      rw [ih (fun x hx => h x (List.mem_cons_of_mem _ hx))]
  have hchildren : ((p.serialize env).childrenWithTagName env.clipKey).map env.deserialize =
      p.clips.reverse := by
    rw [serialize_eq]
    simp only [XmlElement.childrenWithTagName, XmlElement.children]
    rw [← List.map_reverse]
    exact hall p.clips.reverse (fun c hc => hrt c (List.mem_reverse.mp hc))
  rw [hchildren, List.length_reverse]

/-- C18, as amended: for every pattern whose clips round-trip, deserializing what `serialize`
wrote yields the same clip array, same order, when that array is non-empty, sorted and free of
key-equal clips; and yields the single clip `Clip(this)` when the array is empty, as after
`reset`. -/
theorem deserialize_serialize {env : Env Clip} (ho : env.Ordered) (hc : env.SortContract)
    (p q : Pattern Clip)
    (hrt : ∀ c ∈ p.clips, env.deserialize (env.serialize c) = c ∧
      (env.serialize c).getTagName = env.clipKey) :
    (p.clips ≠ [] → Sorted env p.clips → NoDuplicateKeys env p.clips →
      (q.deserialize env (p.serialize env)).clips = p.clips) ∧
    (p.clips = [] → (q.deserialize env (p.serialize env)).clips = [env.create]) := by
  rw [clips_deserialize_serialize env p q hrt]
  constructor
  · intro hne hs hd
    have hlen : ¬ p.clips.length = 0 := fun h => hne (List.length_eq_zero.mp h)
    simp only [hlen, if_false]
    have hperm : (env.stdSort p.clips.reverse).Perm p.clips :=
      (hc.perm _).trans (List.reverse_perm _)
    exact eq_of_perm_of_sorted_noDuplicateKeys ho hperm (hc.sorted _) hs
      (NoDuplicateKeys.of_perm ho hperm hd) hd
  · intro hnil
    simp only [hnil, List.length_nil, if_true]
    exact List.perm_singleton.mp (hc.perm [env.create])

open Example

/-- C18 fails as stated.  A pattern emptied by `reset` comes back from `serialize` and
`deserialize` with one clip; and the pattern reached by `insert(clipA)` and
`change(origin, clipA2)` comes back with its two key-equal clips exchanged. -/
theorem deserialize_serialize_counterexample :
    ¬ ((∀ c ∈ (fresh.run clipEnv [Op.reset]).clips,
          clipEnv.deserialize (clipEnv.serialize c) = c) →
        (fresh.deserialize clipEnv ((fresh.run clipEnv [Op.reset]).serialize clipEnv)).clips =
          (fresh.run clipEnv [Op.reset]).clips) ∧
    ¬ ((∀ c ∈ (fresh.run clipEnv [Op.insert clipA, Op.change origin clipA2]).clips,
          clipEnv.deserialize (clipEnv.serialize c) = c) →
        (fresh.deserialize clipEnv
            ((fresh.run clipEnv [Op.insert clipA, Op.change origin clipA2]).serialize
              clipEnv)).clips =
          (fresh.run clipEnv [Op.insert clipA, Op.change origin clipA2]).clips) := by
  constructor
  · intro h
    have h1 := h (by decide)
    revert h1
    decide
  · intro h
    have h1 := h (by decide)
    revert h1
    decide

/-- Witness of C18 as amended. -/
theorem deserialize_serialize_witness :
    (clipEnv.Ordered ∧ clipEnv.SortContract ∧
      (∀ c ∈ three.clips, clipEnv.deserialize (clipEnv.serialize c) = c ∧
        (clipEnv.serialize c).getTagName = clipEnv.clipKey) ∧
      three.clips ≠ [] ∧ Sorted clipEnv three.clips ∧ NoDuplicateKeys clipEnv three.clips) ∧
    (fresh.deserialize clipEnv (three.serialize clipEnv)).clips = three.clips :=
  ⟨⟨clipEnv_ordered, clipEnv_sortContract, by decide, by decide, by decide, by decide⟩,
    (deserialize_serialize clipEnv_ordered clipEnv_sortContract three fresh (by decide)).1
      (by decide) (by decide) (by decide)⟩

/-- Witness of C19. -/
theorem deserialize_without_clips_witness :
    (clipEnv.SortContract ∧
      documentRoot clipEnv
          (XmlElement.node "track" [] [XmlElement.node "pattern" [] [XmlElement.node "note" [] []]])
        = some (XmlElement.node "pattern" [] [XmlElement.node "note" [] []]) ∧
      (XmlElement.node "pattern" [] [XmlElement.node "note" [] []]).childrenWithTagName
        clipEnv.clipKey = []) ∧
    (three.deserialize clipEnv
        (XmlElement.node "track" [] [XmlElement.node "pattern" [] [XmlElement.node "note" [] []]])
      ).clips = [clipEnv.create] :=
  ⟨⟨clipEnv_sortContract, rfl, rfl⟩,
    deserialize_without_clips clipEnv_sortContract three _ _ rfl rfl⟩

end Pattern

/-! ## Sizes of the annotation actions -/

namespace Annotations

variable {Project Sequence Event : Type}

theorem narrowToInt_of_lt {n : Nat} (h : n < 2 ^ 31) : narrowToInt n = (n : Int) := by
  unfold narrowToInt
  have h1 : n % 2 ^ 32 = n := Nat.mod_eq_of_lt (by omega)
  rw [h1, if_pos h]

/-- C21: `getSizeInUnits` is the size `u` of one event times the number of events the action
stores: `u` for an insert and a remove action, `2u` for a change action, `u * n` for a group
insert and a group remove action over `n` events, and `u * (|eventsBefore| + |eventsAfter|)`
for a group change action; the products are those of the code while they fit the returned
`int`. -/
theorem getSizeInUnits_eq (ev : EventEnv Event) (t : String) (e a b : Event)
    (es bs as : List Event) (h2 : ev.sizeOfEvent * 2 < 2 ^ 31)
    (hn : ev.sizeOfEvent * es.length < 2 ^ 31)
    (hg : ev.sizeOfEvent * (bs.length + as.length) < 2 ^ 31) :
    (AnnotationEventInsertAction.mk t e).getSizeInUnits ev = (ev.sizeOfEvent : Int) ∧
    (AnnotationEventRemoveAction.mk t e).getSizeInUnits ev = (ev.sizeOfEvent : Int) ∧
    (AnnotationEventChangeAction.mk t a b).getSizeInUnits ev = 2 * (ev.sizeOfEvent : Int) ∧
    (AnnotationEventsGroupInsertAction.new t es).getSizeInUnits ev =
      (ev.sizeOfEvent : Int) * (es.length : Int) ∧
    (AnnotationEventsGroupRemoveAction.new t es).getSizeInUnits ev =
      (ev.sizeOfEvent : Int) * (es.length : Int) ∧
    (AnnotationEventsGroupChangeAction.new t bs as).getSizeInUnits ev =
      (ev.sizeOfEvent : Int) * ((bs.length : Int) + (as.length : Int)) := by
  have h1 : ev.sizeOfEvent < 2 ^ 31 := by omega
  have hg' : ev.sizeOfEvent * bs.length + ev.sizeOfEvent * as.length < 2 ^ 31 := by
    rw [← Nat.mul_add]; exact hg
  refine ⟨?_, ?_, ?_, ?_, ?_, ?_⟩
  · simp only [AnnotationEventInsertAction.getSizeInUnits]
    exact narrowToInt_of_lt h1
  · simp only [AnnotationEventRemoveAction.getSizeInUnits]
    exact narrowToInt_of_lt h1
  · simp only [AnnotationEventChangeAction.getSizeInUnits]
    rw [narrowToInt_of_lt h2]
    push_cast
    ring
  · simp only [AnnotationEventsGroupInsertAction.getSizeInUnits,
      AnnotationEventsGroupInsertAction.new]
    rw [narrowToInt_of_lt hn]
    push_cast
    ring
  · simp only [AnnotationEventsGroupRemoveAction.getSizeInUnits,
      AnnotationEventsGroupRemoveAction.new]
    rw [narrowToInt_of_lt hn]
    push_cast
    ring
  · simp only [AnnotationEventsGroupChangeAction.getSizeInUnits,
      AnnotationEventsGroupChangeAction.new, List.nil_append]
    rw [narrowToInt_of_lt hg']
    push_cast
    ring

/-- C26: the first-id check lets different groups through.  On a resolvable track, a group
change action with `eventsBefore = [x1, x2]` coalesces with a following one with
`eventsAfter = [z1, z2]` as soon as `x1` and `z1` share their id, although the id of `z2`
occurs nowhere in `[x1, x2]`: the arrays have the same length and first id, different sets of
ids, and the merged group change action is returned. -/
theorem groupChange_coalesces_other_group (ops : ProjectOps Project Sequence Event)
    (ev : EventEnv Event) (project : Project) (t : String) (x1 x2 z1 z2 : Event)
    (Y Y' : List Event)
    (hres : (ops.findSequenceByTrackId project t).isSome = true)
    (hfirst : ev.getId x1 = ev.getId z1)
    (h1 : ev.getId z2 ≠ ev.getId x1) (h2 : ev.getId z2 ≠ ev.getId x2) :
    [x1, x2].length = [z1, z2].length ∧
    ev.getId (arrayAt ev [x1, x2] 0) = ev.getId (arrayAt ev [z1, z2] 0) ∧
    ¬ (∀ i, i ∈ [x1, x2].map ev.getId ↔ i ∈ [z1, z2].map ev.getId) ∧
    (AnnotationEventsGroupChangeAction.new t [x1, x2] Y).createCoalescedAction ops ev project
        (AnnotationUndoAction.groupChange
          (AnnotationEventsGroupChangeAction.new t Y' [z1, z2])) =
      some (AnnotationUndoAction.groupChange
        (AnnotationEventsGroupChangeAction.new t [x1, x2] [z1, z2])) := by
  obtain ⟨s, hs⟩ := Option.isSome_iff_exists.mp hres
  refine ⟨rfl, ?_, ?_, ?_⟩
  · simpa [arrayAt] using hfirst
  · intro hall
    have hmem : ev.getId z2 ∈ [x1, x2].map ev.getId := (hall (ev.getId z2)).mpr (by simp)
    simp only [List.map_cons, List.map_nil, List.mem_cons, List.mem_singleton,
      List.not_mem_nil, or_false] at hmem
    rcases hmem with h | h
    · exact h1 h
    · exact h2 h
  · simp [AnnotationEventsGroupChangeAction.createCoalescedAction,
      AnnotationEventsGroupChangeAction.new, arrayAt, hs, hfirst]

/-- C28, as amended: between two group change actions on the same resolvable track, element 0
of `eventsBefore` and of the next `eventsAfter` is read exactly when the two arrays have the
same size, and the two reads are in bounds exactly when that size is not zero. -/
theorem groupChange_elementReads (ops : ProjectOps Project Sequence Event) (project : Project)
    (t : String) (X Y Y' Z : List Event)
    (hres : (ops.findSequenceByTrackId project t).isSome = true) :
    (AnnotationEventsGroupChangeAction.new t X Y).elementReads ops project
        (AnnotationUndoAction.groupChange (AnnotationEventsGroupChangeAction.new t Y' Z)) =
      (if X.length = Z.length then
        [{ index := 0, size := X.length }, { index := 0, size := Z.length }]
      else []) ∧
    ((∀ r ∈ (AnnotationEventsGroupChangeAction.new t X Y).elementReads ops project
          (AnnotationUndoAction.groupChange (AnnotationEventsGroupChangeAction.new t Y' Z)),
        r.InBounds) ↔ (X.length = Z.length → 0 < X.length)) := by
  obtain ⟨s, hs⟩ := Option.isSome_iff_exists.mp hres
  have hr : (AnnotationEventsGroupChangeAction.new t X Y).elementReads ops project
        (AnnotationUndoAction.groupChange (AnnotationEventsGroupChangeAction.new t Y' Z)) =
      (if X.length = Z.length then
        [{ index := 0, size := X.length }, { index := 0, size := Z.length }]
      else []) := by
    simp [AnnotationEventsGroupChangeAction.elementReads, AnnotationEventsGroupChangeAction.new,
      hs]
  refine ⟨hr, ?_⟩
  rw [hr]
  by_cases hlen : X.length = Z.length
  · simp only [hlen, if_true, List.mem_cons, List.mem_singleton, List.not_mem_nil, or_false,
      forall_eq_or_imp, forall_eq, ElementRead.InBounds, forall_const]
    omega
  · simp [hlen]

end Annotations

/-! ## Effects of the silent operations, undo and redo, and sorting -/

namespace Example

set_option maxRecDepth 100000

/-- What the `std::sort` of libstdc++ makes of the seventeen sorted clips: the pivot step
carries `clipA` to the middle, and the final insertion sort brings it back behind `clipA2`,
which is not less. -/
theorem gnuSort_seventeen :
    GnuSort.sort Clip.less seventeen.clips =
      some (clipA2 :: clipA :: (List.range 15).map (fun n => later (n + 2))) := by
  decide

/-- An array of two key-equal clips is below the threshold of 16 and is left as it is. -/
theorem gnuSort_pair :
    GnuSort.sort Clip.less [clipA, clipA2] = some [clipA, clipA2] := by
  decide

/-- Sorting that result again exchanges the two key-equal clips once more. -/
theorem gnuSort_seventeen_again :
    GnuSort.sort Clip.less (clipA2 :: clipA :: (List.range 15).map (fun n => later (n + 2))) =
      some seventeen.clips := by
  decide

end Example

namespace Pattern

variable {Clip : Type}

/-- C22: the silent operations bypass the undo stack: `silentImport` and `insert`, `remove`
and `change` with `undoable = false` make no call to the undo stack, whether they succeed or
fail. -/
theorem silent_stackCalls (env : Env Clip) (p : Pattern Clip) (clip newClip : Clip) :
    (p.silentImport env clip).stackCalls = p.stackCalls ∧
    (p.insert env clip false).2.stackCalls = p.stackCalls ∧
    (p.remove env clip false).2.stackCalls = p.stackCalls ∧
    (p.change env clip newClip false).2.stackCalls = p.stackCalls := by
  refine ⟨?_, ?_, ?_, ?_⟩
  · simp only [silentImport]
    split <;> rfl
  · simp only [insert, Bool.false_eq_true, if_false]
    split <;> rfl
  · simp only [remove, removeBody, Bool.false_eq_true, if_false]
    split <;> rfl
  · simp only [change, changeBody, Bool.false_eq_true, if_false]
    split <;> rfl

/-- C24: a newly constructed pattern holds exactly one clip, `Clip(this)`. -/
theorem new_clips (env : Env Clip) (trackId : String) :
    (new env trackId).clips = [env.create] :=
  rfl

/-- C25: each silent operation dispatches exactly one notification of its own kind when it
returns true (`insert`: the clip added; `remove`: the clip removed; `change`: the old and the
new clip) and none when it returns false. -/
theorem silent_dispatched (env : Env Clip) (p : Pattern Clip) (clip newClip : Clip) :
    (p.insert env clip false).2.dispatched =
      p.dispatched ++ (if (p.insert env clip false).1 then [Dispatched.addClip clip] else []) ∧
    (p.remove env clip false).2.dispatched =
      p.dispatched ++
        (if (p.remove env clip false).1 then [Dispatched.removeClip clip] else []) ∧
    (p.change env clip newClip false).2.dispatched =
      p.dispatched ++
        (if (p.change env clip newClip false).1 then [Dispatched.changeClip clip newClip]
        else []) := by
  refine ⟨?_, ?_, ?_⟩
  · simp only [insert, Bool.false_eq_true, if_false]
    split <;> simp [insertBody, notifyClipAdded]
  · simp only [remove, removeBody, Bool.false_eq_true, if_false]
    split <;> simp [notifyClipRemoved]
  · simp only [change, changeBody, Bool.false_eq_true, if_false]
    split <;> simp [notifyClipChanged]

/-- C27: `undo` makes no call to the stack when `canUndo ()` is false, `redo` none when
`canRedo ()` is false; when `canUndo ()` is true, `undo` opens a new transaction with the
empty name and then calls the stack's `undo` once. -/
theorem undo_redo_stackCalls (stack : UndoStack Clip) (p : Pattern Clip) :
    (stack.canUndo = false → p.undo stack = p) ∧
    (stack.canRedo = false → p.redo stack = p) ∧
    (stack.canUndo = true →
      (p.undo stack).stackCalls =
        p.stackCalls ++ [StackCall.beginNewTransaction "", StackCall.undo]) := by
  refine ⟨?_, ?_, ?_⟩
  · intro h; simp [undo, h]
  · intro h; simp [redo, h]
  · intro h; simp [undo, h, stackUndo, checkpoint]

/-- C29: whatever the pattern held before, deserializing a document that is not tagged as a
pattern and has no pattern child leaves the pattern without any clip and dispatches
nothing. -/
theorem deserialize_without_pattern (env : Env Clip) (p : Pattern Clip) (xml : XmlElement)
    (htag : xml.getTagName ≠ env.patternKey)
    (hchild : xml.getChildByName env.patternKey = none) :
    (p.deserialize env xml).clips = [] ∧
    (p.deserialize env xml).dispatched = p.dispatched := by
  simp [deserialize, htag, hchild, clearQuick]

/-- The sorted array `sort` leaves is a rearrangement of the array before. -/
theorem sort_perm {env : Env Clip} (hc : env.SortContract) (p : Pattern Clip) :
    (p.sort env).clips.Perm p.clips := by
  unfold sort
  split
  · exact hc.perm _
  · exact List.Perm.refl _

/-- C23, as amended: the clip array after `sort` is sorted and is a rearrangement of the array
before; and when no two clips of the pattern are equal under the key, calling `sort` twice
leaves the same array as calling it once. -/
theorem sort_sorted_perm_idempotent {env : Env Clip} (ho : env.Ordered) (hc : env.SortContract)
    (p : Pattern Clip) :
    Sorted env (p.sort env).clips ∧ (p.sort env).clips.Perm p.clips ∧
    (NoDuplicateKeys env p.clips → ((p.sort env).sort env).clips = (p.sort env).clips) := by
  refine ⟨sorted_sort hc p, sort_perm hc p, ?_⟩
  intro hd
  have hd1 : NoDuplicateKeys env (p.sort env).clips :=
    NoDuplicateKeys.of_perm ho (sort_perm hc p) hd
  exact eq_of_perm_of_sorted_noDuplicateKeys ho (sort_perm hc (p.sort env))
    (sorted_sort hc (p.sort env)) (sorted_sort hc p)
    (NoDuplicateKeys.of_perm ho (sort_perm hc (p.sort env)) hd1) hd1

theorem contains_insertIdx {env : Env Clip} (hrefl : ∀ x, env.equals x x = true)
    (arr : List Clip) (x : Clip) {k : Nat} (hk : k ≤ arr.length) :
    JuceArray.contains env (arr.insertIdx k x) x = true := by
  simp only [JuceArray.contains, List.any_eq_true]
  exact ⟨x, (List.mem_insertIdx hk).mpr (Or.inl rfl), hrefl x⟩

/-- C30: for every pattern with a sorted clip array and every clip, `silentImport` leaves a
sorted array that contains the clip; a second `silentImport` of the clip changes nothing;
importing a clip the pattern already contains changes nothing; and in no case is a
notification dispatched or the undo stack called. -/
theorem silentImport_idempotent {env : Env Clip} (ho : env.Ordered)
    (hrefl : ∀ x, env.equals x x = true) (p : Pattern Clip) (clip : Clip)
    (hs : Sorted env p.clips) :
    Sorted env (p.silentImport env clip).clips ∧
    JuceArray.contains env (p.silentImport env clip).clips clip = true ∧
    (p.silentImport env clip).silentImport env clip = p.silentImport env clip ∧
    (JuceArray.contains env p.clips clip = true → p.silentImport env clip = p) ∧
    (p.silentImport env clip).dispatched = p.dispatched ∧
    ((p.silentImport env clip).silentImport env clip).dispatched = p.dispatched := by
  have hk := JuceArray.findInsertIndexInSortedArray_le ho hs clip
  by_cases hc : JuceArray.contains env p.clips clip = true
  · have h1 : p.silentImport env clip = p := by simp [silentImport, hc]
    rw [h1, h1]
    exact ⟨hs, hc, rfl, fun _ => rfl, rfl, rfl⟩
  · have hc' : JuceArray.contains env p.clips clip = false := by
      cases h : JuceArray.contains env p.clips clip
      · rfl
      · exact absurd h hc
    have h1 : p.silentImport env clip =
        { p with clips := JuceArray.addSorted env p.clips clip } := by
      simp [silentImport, hc']
    have h2 : JuceArray.contains env (JuceArray.addSorted env p.clips clip) clip = true :=
      contains_insertIdx hrefl p.clips clip hk
    have h3 : ({ p with clips := JuceArray.addSorted env p.clips clip } :
        Pattern Clip).silentImport env clip =
        { p with clips := JuceArray.addSorted env p.clips clip } := by
      simp [silentImport, h2]
    rw [h1, h3]
    exact ⟨JuceArray.addSorted_sorted ho hs clip, h2, rfl, fun h => absurd h hc, rfl, rfl⟩

end Pattern

namespace Example

theorem clipEnv_equals_refl : ∀ x : Clip, clipEnv.equals x x = true := by
  intro x
  simp [clipEnv, Clip.equals]

end Example

namespace Annotations

open Example

/-- Witness of C21. -/
theorem getSizeInUnits_eq_witness :
    (eventEnv.sizeOfEvent * 2 < 2 ^ 31 ∧
      eventEnv.sizeOfEvent * [noteA, noteB, noteC].length < 2 ^ 31 ∧
      eventEnv.sizeOfEvent * ([noteA, noteB].length + [noteA1, noteB1].length) < 2 ^ 31) ∧
    ((AnnotationEventInsertAction.mk "annotations" noteC).getSizeInUnits eventEnv =
        (eventEnv.sizeOfEvent : Int) ∧
      (AnnotationEventRemoveAction.mk "annotations" noteC).getSizeInUnits eventEnv =
        (eventEnv.sizeOfEvent : Int) ∧
      (AnnotationEventChangeAction.mk "annotations" noteA noteA1).getSizeInUnits eventEnv =
        2 * (eventEnv.sizeOfEvent : Int) ∧
      (AnnotationEventsGroupInsertAction.new "annotations"
          [noteA, noteB, noteC]).getSizeInUnits eventEnv =
        (eventEnv.sizeOfEvent : Int) * (([noteA, noteB, noteC].length : Nat) : Int) ∧
      (AnnotationEventsGroupRemoveAction.new "annotations"
          [noteA, noteB, noteC]).getSizeInUnits eventEnv =
        (eventEnv.sizeOfEvent : Int) * (([noteA, noteB, noteC].length : Nat) : Int) ∧
      (AnnotationEventsGroupChangeAction.new "annotations" [noteA, noteB]
          [noteA1, noteB1]).getSizeInUnits eventEnv =
        (eventEnv.sizeOfEvent : Int) *
          ((([noteA, noteB].length : Nat) : Int) + (([noteA1, noteB1].length : Nat) : Int))) :=
  ⟨⟨by decide, by decide, by decide⟩,
    getSizeInUnits_eq eventEnv "annotations" noteC noteA noteA1 [noteA, noteB, noteC]
      [noteA, noteB] [noteA1, noteB1] (by decide) (by decide) (by decide)⟩

/-- Witness of C26. -/
theorem groupChange_coalesces_other_group_witness :
    ((projectOps.findSequenceByTrackId project "annotations").isSome = true ∧
      eventEnv.getId noteA = eventEnv.getId noteA2 ∧
      eventEnv.getId noteC ≠ eventEnv.getId noteA ∧
      eventEnv.getId noteC ≠ eventEnv.getId noteB) ∧
    ([noteA, noteB].length = [noteA2, noteC].length ∧
      eventEnv.getId (arrayAt eventEnv [noteA, noteB] 0) =
        eventEnv.getId (arrayAt eventEnv [noteA2, noteC] 0) ∧
      ¬ (∀ i, i ∈ [noteA, noteB].map eventEnv.getId ↔ i ∈ [noteA2, noteC].map eventEnv.getId) ∧
      (AnnotationEventsGroupChangeAction.new "annotations" [noteA, noteB]
            [noteA1, noteB1]).createCoalescedAction projectOps eventEnv project
          (AnnotationUndoAction.groupChange
            (AnnotationEventsGroupChangeAction.new "annotations" [noteA1, noteB1]
              [noteA2, noteC])) =
        some (AnnotationUndoAction.groupChange
          (AnnotationEventsGroupChangeAction.new "annotations" [noteA, noteB]
            [noteA2, noteC]))) :=
  ⟨⟨by decide, by decide, by decide, by decide⟩,
    groupChange_coalesces_other_group projectOps eventEnv project "annotations" noteA noteB
      noteA2 noteC [noteA1, noteB1] [noteA1, noteB1] (by decide) (by decide) (by decide)
      (by decide)⟩

/-- C28 fails as stated: between two group change actions on the resolvable track
`"annotations"` whose arrays are both empty, hence of equal size, element 0 of both arrays is
read, out of bounds. -/
theorem groupChange_elementReads_counterexample :
    ¬ ((projectOps.findSequenceByTrackId project "annotations").isSome = true →
        ∀ r ∈ (AnnotationEventsGroupChangeAction.new "annotations" ([] : List Annotation)
              []).elementReads projectOps project
            (AnnotationUndoAction.groupChange
              (AnnotationEventsGroupChangeAction.new "annotations" [] [])),
          r.InBounds) := by
  intro h
  have h1 := h (by decide)
  revert h1
  decide

/-- Witness of C28 as amended. -/
theorem groupChange_elementReads_witness :
    (projectOps.findSequenceByTrackId project "annotations").isSome = true ∧
    ((AnnotationEventsGroupChangeAction.new "annotations" [noteA, noteB]
          [noteA1, noteB1]).elementReads projectOps project
        (AnnotationUndoAction.groupChange
          (AnnotationEventsGroupChangeAction.new "annotations" [noteA1, noteB1]
            [noteA2, noteB1])) =
      (if [noteA, noteB].length = [noteA2, noteB1].length then
        [{ index := 0, size := [noteA, noteB].length },
          { index := 0, size := [noteA2, noteB1].length }]
      else []) ∧
    ((∀ r ∈ (AnnotationEventsGroupChangeAction.new "annotations" [noteA, noteB]
            [noteA1, noteB1]).elementReads projectOps project
          (AnnotationUndoAction.groupChange
            (AnnotationEventsGroupChangeAction.new "annotations" [noteA1, noteB1]
              [noteA2, noteB1])),
        r.InBounds) ↔
      ([noteA, noteB].length = [noteA2, noteB1].length → 0 < [noteA, noteB].length))) :=
  ⟨by decide,
    groupChange_elementReads projectOps project "annotations" [noteA, noteB] [noteA1, noteB1]
      [noteA1, noteB1] [noteA2, noteB1] (by decide)⟩

end Annotations

namespace Pattern

open Example

set_option maxRecDepth 100000

/-- C23 fails as stated: with the `std::sort` of libstdc++, one call of `sort` turns the
sorted pattern `seventeen` into `clipA2, clipA, ...` and a second call turns it back into
`clipA, clipA2, ...`, so calling `sort` twice does not leave what calling it once leaves. -/
theorem sort_twice_counterexample :
    ¬ (((seventeen.sort gnuEnv).sort gnuEnv).clips = (seventeen.sort gnuEnv).clips ∧
        Sorted gnuEnv (seventeen.sort gnuEnv).clips ∧
        (seventeen.sort gnuEnv).clips.Perm seventeen.clips) := by
  intro h
  have h1 := h.1
  revert h1
  decide

/-- Witness of C23 as amended. -/
theorem sort_sorted_perm_idempotent_witness :
    (clipEnv.Ordered ∧ clipEnv.SortContract ∧ NoDuplicateKeys clipEnv three.clips) ∧
    (Sorted clipEnv (three.sort clipEnv).clips ∧ (three.sort clipEnv).clips.Perm three.clips ∧
      ((three.sort clipEnv).sort clipEnv).clips = (three.sort clipEnv).clips) :=
  ⟨⟨clipEnv_ordered, clipEnv_sortContract, by decide⟩,
    (sort_sorted_perm_idempotent clipEnv_ordered clipEnv_sortContract three).1,
    (sort_sorted_perm_idempotent clipEnv_ordered clipEnv_sortContract three).2.1,
    (sort_sorted_perm_idempotent clipEnv_ordered clipEnv_sortContract three).2.2 (by decide)⟩

/-- Witness of C27. -/
theorem undo_redo_stackCalls_witness :
    (idleStack.canUndo = false ∧ idleStack.canRedo = false ∧ busyStack.canUndo = true) ∧
    (three.undo idleStack = three ∧ three.redo idleStack = three ∧
      (three.undo busyStack).stackCalls =
        three.stackCalls ++ [StackCall.beginNewTransaction "", StackCall.undo]) :=
  ⟨⟨rfl, rfl, rfl⟩,
    (undo_redo_stackCalls idleStack three).1 rfl,
    (undo_redo_stackCalls idleStack three).2.1 rfl,
    (undo_redo_stackCalls busyStack three).2.2 rfl⟩

/-- Witness of C29. -/
theorem deserialize_without_pattern_witness :
    ((XmlElement.node "track" [] [XmlElement.node "note" [] []]).getTagName ≠
        clipEnv.patternKey ∧
      (XmlElement.node "track" [] [XmlElement.node "note" [] []]).getChildByName
        clipEnv.patternKey = none) ∧
    ((three.deserialize clipEnv (XmlElement.node "track" [] [XmlElement.node "note" [] []])).clips
        = [] ∧
      (three.deserialize clipEnv
        (XmlElement.node "track" [] [XmlElement.node "note" [] []])).dispatched =
        three.dispatched) :=
  ⟨⟨by decide, rfl⟩,
    deserialize_without_pattern clipEnv three _ (by decide) rfl⟩

/-- Witness of C30. -/
theorem silentImport_idempotent_witness :
    (clipEnv.Ordered ∧ (∀ x, clipEnv.equals x x = true) ∧ Sorted clipEnv three.clips ∧
      JuceArray.contains clipEnv (three.silentImport clipEnv clipC).clips clipC = true) ∧
    (Sorted clipEnv (three.silentImport clipEnv clipC).clips ∧
      JuceArray.contains clipEnv (three.silentImport clipEnv clipC).clips clipC = true ∧
      (three.silentImport clipEnv clipC).silentImport clipEnv clipC =
        three.silentImport clipEnv clipC ∧
      (three.silentImport clipEnv clipC).silentImport clipEnv clipC =
        three.silentImport clipEnv clipC ∧
      (three.silentImport clipEnv clipC).dispatched = three.dispatched) :=
  ⟨⟨clipEnv_ordered, clipEnv_equals_refl, by decide, by decide⟩,
    (silentImport_idempotent clipEnv_ordered clipEnv_equals_refl three clipC (by decide)).1,
    (silentImport_idempotent clipEnv_ordered clipEnv_equals_refl three clipC (by decide)).2.1,
    (silentImport_idempotent clipEnv_ordered clipEnv_equals_refl three clipC (by decide)).2.2.1,
    (silentImport_idempotent clipEnv_ordered clipEnv_equals_refl
      (three.silentImport clipEnv clipC) clipC (by decide)).2.2.2.1 (by decide),
    (silentImport_idempotent clipEnv_ordered clipEnv_equals_refl three clipC
      (by decide)).2.2.2.2.1⟩

end Pattern

end Helio
